import Mathlib

/-!
# Verification development for `ddns/dnspod-go/dnspod.go`

A shallow embedding of the dynamic-DNS updater: the reconciler loop of `main`
(cache compare, remote update, cache write) and the interface scanner
`GetNetInterface`.  Side effects are made explicit: a run returns the
chronological list of the effects it performed together with the final
content of the two cache files.
-/

namespace Dnspod

/-! ## Data model -/

/-- Go `type IpAddress struct { IpVer int; Address string }`. -/
structure IpAddress where
  IpVer : Int
  Address : String
  deriving DecidableEq, Repr

/-- The two cache files the program names: `"LAST_IP"` and `"LAST_IP6"`. -/
inductive FileName where
  | LAST_IP
  | LAST_IP6
  deriving DecidableEq, Repr

/-- Content of the two cache files; `none` is a file that is absent or
cannot be read (`os.ReadFile` returns an error). -/
structure Files where
  LAST_IP : Option String
  LAST_IP6 : Option String
  deriving DecidableEq, Repr

/-- Content of one cache file. -/
def Files.get (fs : Files) : FileName → Option String
  | FileName.LAST_IP => fs.LAST_IP
  | FileName.LAST_IP6 => fs.LAST_IP6

/-- Replace the content of one cache file. -/
def Files.set (fs : Files) (f : FileName) (c : Option String) : Files :=
  match f with
  | FileName.LAST_IP => { fs with LAST_IP := c }
  | FileName.LAST_IP6 => { fs with LAST_IP6 := c }

/-- Result of the remote call `client.ModifyDynamicDNS`: `nil`, an error of
type `*errors.TencentCloudSDKError`, or an error of any other type. -/
inductive RemoteErr where
  | nil
  | TencentCloudSDKError (msg : String)
  | otherError (msg : String)
  deriving DecidableEq, Repr

/-- Result of `os.WriteFile`: success, or failure leaving the file with the
content `residue` (the old content when the file could not be opened, a
truncated one when the write itself failed). -/
inductive WriteResult where
  | ok
  | failed (residue : Option String)
  deriving DecidableEq, Repr

/-- What the environment decides during a run, indexed by the position in
the address list of the loop iteration that performs the operation (one
iteration performs at most one remote call and at most one write). -/
structure World where
  remote : Nat → RemoteErr
  write : Nat → WriteResult

/-- The observable effects of a run, in the order they happen. -/
inductive Event where
  | ReadLastIp (fileName : FileName)
  | UpdateAddr4 (addr : String)
  | UpdateAddr6 (addr : String)
  | CacheLastIp (fileName : FileName) (addr : String)
  | Printf (text : String)
  deriving DecidableEq, Repr

/-! ## Cache primitives -/

/-- Go `ReadLastIp`: the file content, or `("", error)` when the file
cannot be read. -/
def ReadLastIp (fs : Files) (fileName : FileName) : String × Bool :=
  match fs.get fileName with
  | none => ("", true)
  | some content => (content, false)

/-- Go `CacheLastIp`: `os.WriteFile(fileName, []byte(addr), 0644)`; returns
the files afterwards and whether an error was returned. -/
def CacheLastIp (res : WriteResult) (fs : Files) (fileName : FileName) (addr : String) :
    Files × Bool :=
  match res with
  | WriteResult.ok => (fs.set fileName (some addr), false)
  | WriteResult.failed residue => (fs.set fileName residue, true)

/-- Go `RequestToDnspod`: performs the call, prints a line when the error is
a `TencentCloudSDKError`, and returns the error unchanged. -/
def RequestToDnspod (res : RemoteErr) : List Event × RemoteErr :=
  match res with
  | RemoteErr.TencentCloudSDKError msg =>
      ([Event.Printf ("An API error has returned: " ++ msg)], res)
  | _ => ([], res)

/-- Go `UpdateAddr4`: builds the request with `Value = addr` and sends it. -/
def UpdateAddr4 (res : RemoteErr) (addr : String) : List Event × RemoteErr :=
  let r := RequestToDnspod res
  (Event.UpdateAddr4 addr :: r.1, r.2)

/-- Go `UpdateAddr6`: builds the request with `Value = addr` and sends it. -/
def UpdateAddr6 (res : RemoteErr) (addr : String) : List Event × RemoteErr :=
  let r := RequestToDnspod res
  (Event.UpdateAddr6 addr :: r.1, r.2)

/-! ## The reconciler loop of `main` (source lines 131-164) -/

/-- Loop variables that survive an iteration, and the effects so far. -/
structure LoopState where
  v4 : Bool
  v6 : Bool
  files : Files
  trace : List Event
  deriving DecidableEq, Repr

/-- One iteration of `for _, addr := range addrs`, at list position `i`.
The error returned by the remote update is only passed to `fmt.Errorf`, whose
result is dropped, and the error returned by `CacheLastIp` is dropped, so
neither influences the state. -/
def loopBody (w : World) (i : Nat) (s : LoopState) (addr : IpAddress) : LoopState :=
  if !s.v4 && addr.IpVer == 4 then
    let r := ReadLastIp s.files FileName.LAST_IP
    let lastV4 := if r.2 then "" else r.1
    let s1 := { s with trace := s.trace ++ [Event.ReadLastIp FileName.LAST_IP] }
    if lastV4 == addr.Address then
      s1
    else
      let u := UpdateAddr4 (w.remote i) addr.Address
      let c := CacheLastIp (w.write i) s1.files FileName.LAST_IP addr.Address
      { v4 := true, v6 := s1.v6, files := c.1,
        trace := s1.trace ++ u.1 ++ [Event.CacheLastIp FileName.LAST_IP addr.Address] }
  else if !s.v6 && addr.IpVer == 6 then
    let r := ReadLastIp s.files FileName.LAST_IP6
    let lastV6 := if r.2 then "" else r.1
    let s1 := { s with trace := s.trace ++ [Event.ReadLastIp FileName.LAST_IP6] }
    if lastV6 == addr.Address then
      s1
    else
      let u := UpdateAddr6 (w.remote i) addr.Address
      let c := CacheLastIp (w.write i) s1.files FileName.LAST_IP6 addr.Address
      { v4 := s1.v4, v6 := true, files := c.1,
        trace := s1.trace ++ u.1 ++ [Event.CacheLastIp FileName.LAST_IP6 addr.Address] }
  else
    s

/-- The loop from list position `i` on. -/
def loopFrom (w : World) : Nat → LoopState → List IpAddress → LoopState
  | _, s, [] => s
  | i, s, addr :: rest => loopFrom w (i + 1) (loopBody w i s addr) rest

/-- The reconciler: `v4, v6 := false, false` followed by the loop. -/
def reconcile (w : World) (addrs : List IpAddress) (fs : Files) : LoopState :=
  loopFrom w 0 { v4 := false, v6 := false, files := fs, trace := [] } addrs

/-! ## Platform: the parts of Go's `net` package the scanner calls

`net.IP` and `net.IPMask` are byte slices.  The functions below follow the
standard library: `IP.To4`, `IP.Equal`, the classification predicates,
`IPMask.Size`, `IPNet.Contains` and `IP.String`. -/

/-- A Go `byte`. -/
abbrev Byte := Fin 256

/-- Go `net.IP`. -/
abbrev IP := List Byte

/-- Go `net.IPMask`. -/
abbrev IPMask := List Byte

/-- Go `net.IPNet`. -/
structure IPNet where
  IP : IP
  Mask : IPMask
  deriving DecidableEq, Repr

/-- Go `net.Addr` as the scanner sees it: a value of dynamic type
`*net.IPNet`, or a value of any other type (for which the type assertion
`address.(*net.IPNet)` fails). -/
inductive Addr where
  | IPNet (ipnet : IPNet)
  | other (text : String)
  deriving DecidableEq, Repr

/-- Go `net.IPv4len`. -/
def IPv4len : Nat := 4

/-- Go `net.IPv6len`. -/
def IPv6len : Nat := 16

/-- Go `v4InV6Prefix`: the twelve bytes that start an IPv4-mapped address. -/
def v4InV6Head : List Byte := [0, 0, 0, 0, 0, 0, 0, 0, 0, 0, 0xff, 0xff]

/-- Go `net.IPv4(a, b, c, d)`: the 16-byte form of an IPv4 address. -/
def IPv4 (a b c d : Byte) : IP := v4InV6Head ++ [a, b, c, d]

/-- Go `net.IPv4bcast`. -/
def IPv4bcast : IP := IPv4 255 255 255 255

/-- Go `net.IPv4zero`. -/
def IPv4zero : IP := IPv4 0 0 0 0

/-- Go `net.IPv6unspecified`. -/
def IPv6unspecified : IP := List.replicate 16 0

/-- Go `net.IPv6loopback`. -/
def IPv6loopback : IP := List.replicate 15 0 ++ [1]

/-- Go `isZeros`. -/
def isZeros (p : List Byte) : Bool := p.all fun b => b == 0

/-- Go `IP.To4`: the 4-byte form of an IPv4 address, `none` for Go's `nil`. -/
def IP.To4 (ip : IP) : Option IP :=
  if ip.length = IPv4len then some ip
  else if ip.length = IPv6len && isZeros (ip.take 10)
      && ip.getD 10 0 == 0xff && ip.getD 11 0 == 0xff then some (ip.drop 12)
  else none

/-- Go `IP.Equal`: an IPv4 address and its 16-byte form are equal. -/
def IP.Equal (ip x : IP) : Bool :=
  if ip.length = x.length then ip == x
  else if ip.length = IPv4len ∧ x.length = IPv6len then
    x.take 12 == v4InV6Head && ip == x.drop 12
  else if ip.length = IPv6len ∧ x.length = IPv4len then
    ip.take 12 == v4InV6Head && ip.drop 12 == x
  else false

/-- Go `IP.IsUnspecified`. -/
def IP.IsUnspecified (ip : IP) : Bool :=
  IP.Equal ip IPv4zero || IP.Equal ip IPv6unspecified

/-- Go `IP.IsLoopback`. -/
def IP.IsLoopback (ip : IP) : Bool :=
  match IP.To4 ip with
  | some ip4 => ip4.getD 0 0 == 127
  | none => IP.Equal ip IPv6loopback

/-- Go `IP.IsMulticast`. -/
def IP.IsMulticast (ip : IP) : Bool :=
  match IP.To4 ip with
  | some ip4 => ip4.getD 0 0 &&& 0xf0 == 0xe0
  | none => ip.length = IPv6len && ip.getD 0 0 == 0xff

/-- Go `IP.IsLinkLocalUnicast`. -/
def IP.IsLinkLocalUnicast (ip : IP) : Bool :=
  match IP.To4 ip with
  | some ip4 => ip4.getD 0 0 == 169 && ip4.getD 1 0 == 254
  | none => ip.length = IPv6len && ip.getD 0 0 == 0xfe && ip.getD 1 0 &&& 0xc0 == 0x80

/-- Go `IP.IsPrivate`: RFC 1918 (10/8, 172.16/12, 192.168/16) and RFC 4193
(fc00::/7).  The scanner does not call it; it is what "private" and
"unique-local" mean. -/
def IP.IsPrivate (ip : IP) : Bool :=
  match IP.To4 ip with
  | some ip4 =>
    ip4.getD 0 0 == 10
      || (ip4.getD 0 0 == 172 && ip4.getD 1 0 &&& 0xf0 == 16)
      || (ip4.getD 0 0 == 192 && ip4.getD 1 0 == 168)
  | none => ip.length = IPv6len && ip.getD 0 0 &&& 0xfe == 0xfc

/-- Go `IP.IsGlobalUnicast`. -/
def IP.IsGlobalUnicast (ip : IP) : Bool :=
  (ip.length = IPv4len || ip.length = IPv6len)
    && !IP.Equal ip IPv4bcast
    && !IP.IsUnspecified ip
    && !IP.IsLoopback ip
    && !IP.IsMulticast ip
    && !IP.IsLinkLocalUnicast ip

/-- The inner loop of Go `simpleMaskLength`: `for v&0x80 != 0 { n++; v <<= 1 }`,
which ends within eight rounds. -/
def countOnes : Nat → Int → Byte → Int × Byte
  | 0, n, v => (n, v)
  | fuel + 1, n, v => if v &&& 0x80 != 0 then countOnes fuel (n + 1) (v <<< 1) else (n, v)

/-- Go `simpleMaskLength`: the number of leading ones of a mask made of ones
followed by zeros, `-1` for any other mask. -/
def simpleMaskLength : IPMask → Int → Int
  | [], n => n
  | v :: rest, n =>
    if v == 0xff then simpleMaskLength rest (n + 8)
    else
      let r := countOnes 8 n v
      if r.2 != 0 then -1
      else if rest.all (fun b => b == 0) then r.1
      else -1

/-- Go `IPMask.Size`: `(ones, bits)`, the number of leading ones and the total
number of bits of the mask, `(0, 0)` for a mask not in canonical form. -/
def IPMask.Size (m : IPMask) : Int × Int :=
  let ones := simpleMaskLength m 0
  if ones == -1 then (0, 0) else (ones, m.length * 8)

/-- Go `networkNumberAndMask`; `none` for Go's `nil, nil`. -/
def networkNumberAndMask (n : IPNet) : Option (IP × IPMask) :=
  let ip4 := IP.To4 n.IP
  if ip4 = none ∧ n.IP.length ≠ IPv6len then none
  else
    let ip := ip4.getD n.IP
    if n.Mask.length = IPv4len then
      if ip.length ≠ IPv4len then none else some (ip, n.Mask)
    else if n.Mask.length = IPv6len then
      if ip.length = IPv4len then some (ip, n.Mask.drop 12) else some (ip, n.Mask)
    else none

/-- Go `IPNet.Contains`. -/
def IPNet.Contains (n : IPNet) (ip : List Byte) : Bool :=
  let nm := (networkNumberAndMask n).getD ([], [])
  let x := (IP.To4 ip).getD ip
  if x.length ≠ nm.1.length then false
  else (List.range x.length).all fun i =>
    nm.1.getD i 0 &&& nm.2.getD i 0 == x.getD i 0 &&& nm.2.getD i 0

/-- The network returned by `net.ParseCIDR("2000::/3")`: address `2000::`,
mask of 128 bits with three leading ones. -/
def ipv6Unicast : IPNet :=
  { IP := [0x20, 0, 0, 0, 0, 0, 0, 0, 0, 0, 0, 0, 0, 0, 0, 0],
    Mask := [0xe0, 0, 0, 0, 0, 0, 0, 0, 0, 0, 0, 0, 0, 0, 0, 0] }

/-- Number of zero groups at the head of a list of 16-bit groups. -/
def leadingZeroGroups : List Nat → Nat
  | 0 :: rest => leadingZeroGroups rest + 1
  | _ => 0

/-- Start and length of the longest run of zero groups, the first one when
several are longest. -/
def longestZeroRun (groups : List Nat) : Nat × Nat :=
  (List.range groups.length).foldl
    (fun best i =>
      let n := leadingZeroGroups (groups.drop i)
      if n > best.2 then (i, n) else best)
    (0, 0)

/-- The eight 16-bit groups of a 16-byte address. -/
def groupsOf : List Byte → List Nat
  | hi :: lo :: rest => (hi.val * 256 + lo.val) :: groupsOf rest
  | _ => []

/-- Lower-case hexadecimal without leading zeros. -/
def hexGroup (n : Nat) : String := String.mk (Nat.toDigits 16 n)

/-- Go `IP.String`: dotted decimal for an IPv4 address (in either form),
otherwise the RFC 5952 text of the 16 bytes, where the longest run of two or
more zero groups is written `::`. -/
def IP.String (ip : IP) : String :=
  if ip.length = 0 then "<nil>"
  else if ip.length ≠ IPv4len ∧ ip.length ≠ IPv6len then
    "?" ++ String.join (ip.map fun b =>
      String.mk [Nat.digitChar (b.val / 16), Nat.digitChar (b.val % 16)])
  else
    match IP.To4 ip with
    | some p4 => String.intercalate "." (p4.map fun b => toString b.val)
    | none =>
      let groups := groupsOf ip
      let run := longestZeroRun groups
      if run.2 < 2 then String.intercalate ":" (groups.map hexGroup)
      else
        String.intercalate ":" ((groups.take run.1).map hexGroup) ++ "::"
          ++ String.intercalate ":" ((groups.drop (run.1 + run.2)).map hexGroup)

/-- Go `net.Interface` with the result of its method `Addrs()`: the address
list and the error, if any. -/
structure net.Interface where
  Name : String
  Flags : Nat
  Addrs : List Addr × Option String
  deriving DecidableEq, Repr

/-- Go `net.FlagUp`. -/
def FlagUp : Nat := 1

/-! ## The interface scanner -/

/-- Go `type NetInterface struct { Name string; Addr []IpAddress }`. -/
structure NetInterface where
  Name : String
  Addr : List IpAddress
  deriving DecidableEq, Repr

/-- What one round of the inner loop of `GetNetInterface` appends to
`addrs_to_save` for the entry `address` (source lines 73-81). -/
def acceptAddr (address : Addr) : Option IpAddress :=
  match address with
  | Addr.IPNet ipnet =>
    if IP.IsGlobalUnicast ipnet.IP then
      let bits := (IPMask.Size ipnet.Mask).2
      if bits == 128 && IPNet.Contains ipv6Unicast ipnet.IP then
        some { IpVer := 6, Address := IP.String ipnet.IP }
      else if bits == 32 then
        some { IpVer := 4, Address := IP.String ipnet.IP }
      else none
    else none
  | Addr.other _ => none

/-- The inner loop of `GetNetInterface`: `addrs_to_save` for one interface. -/
def scanAddrs (addrs : List Addr) : List IpAddress :=
  addrs.foldl
    (fun addrs_to_save address =>
      match acceptAddr address with
      | some x => addrs_to_save ++ [x]
      | none => addrs_to_save)
    []

/-- Whether `Flags & net.FlagUp != 0`. -/
def net.Interface.isUp (ifc : net.Interface) : Bool :=
  ifc.Flags &&& FlagUp != 0

/-- Go `GetNetInterface`, given the result of `net.Interfaces()`. -/
def GetNetInterface (interfaces : List net.Interface × Option String) :
    List NetInterface × Option String :=
  match interfaces.2 with
  | some err => ([], some err)
  | none =>
    (interfaces.1.foldl
      (fun iface ifc =>
        if ifc.isUp then iface ++ [{ Name := ifc.Name, Addr := scanAddrs ifc.Addrs.1 }]
        else iface)
      [], none)

/-- Go `GetAddressByInterface`, given the result of `net.Interfaces()`. -/
def GetAddressByInterface (interfaces : List net.Interface × Option String)
    (ifaceName : String) : List IpAddress × Option String :=
  let r := GetNetInterface interfaces
  match r.2 with
  | some err => ([], some err)
  | none =>
    match r.1.find? fun iface => iface.Name == ifaceName with
    | some iface => (iface.Addr, none)
    | none => ([], none)

/-! ## `main` -/

/-- Go `const Interface = "pppoe-wan"`. -/
def Interface : String := "pppoe-wan"

/-- Go `main`, given the result of `net.Interfaces()`, the outcomes the
environment decides and the cache files: the effects of the run and the cache
files afterwards.  The client set-up (lines 126-129) has no effect that is
observed here. -/
def main (interfaces : List net.Interface × Option String) (w : World) (fs : Files) :
    List Event × Files :=
  let r := GetAddressByInterface interfaces Interface
  match r.2 with
  | some err => ([Event.Printf ("unable to get address by wlan0: " ++ err)], fs)
  | none =>
    let s := reconcile w r.1 fs
    (s.trace, s.files)

/-! ## Observations on a trace -/

/-- The two IP versions the reconciler handles. -/
inductive Ver where
  | v4
  | v6
  deriving DecidableEq, Repr

/-- The `IpVer` tag of a version: 4 or 6. -/
def Ver.num : Ver → Int
  | Ver.v4 => 4
  | Ver.v6 => 6

/-- The cache file of a version: `LAST_IP` for 4, `LAST_IP6` for 6. -/
def Ver.file : Ver → FileName
  | Ver.v4 => FileName.LAST_IP
  | Ver.v6 => FileName.LAST_IP6

/-- The remote update call of a version. -/
def Ver.update : Ver → String → Event
  | Ver.v4, a => Event.UpdateAddr4 a
  | Ver.v6, a => Event.UpdateAddr6 a

/-- The "handled" flag of a version in the loop state. -/
def LoopState.handled (s : LoopState) : Ver → Bool
  | Ver.v4 => s.v4
  | Ver.v6 => s.v6

/-- The value an event submits to the remote update of version `v`. -/
def callOf : Ver → Event → Option String
  | Ver.v4, Event.UpdateAddr4 a => some a
  | Ver.v6, Event.UpdateAddr6 a => some a
  | _, _ => none

/-- Values submitted by the remote update calls of version `v`, in order. -/
def calls (v : Ver) (t : List Event) : List String :=
  t.filterMap (callOf v)

/-- The value an event writes to the cache file `f`. -/
def writeOf (f : FileName) : Event → Option String
  | Event.CacheLastIp g a => if g = f then some a else none
  | _ => none

/-- Values written to one cache file, in order. -/
def writesTo (f : FileName) (t : List Event) : List String :=
  t.filterMap (writeOf f)

/-- Whether an event is a read of the cache file `f`. -/
def isReadOf (f : FileName) : Event → Bool
  | Event.ReadLastIp g => decide (g = f)
  | _ => false

/-- Number of reads of one cache file. -/
def readsOf (f : FileName) (t : List Event) : Nat :=
  (t.filter (isReadOf f)).length

/-- Whether an event is a read or write of the cache file of `v` or a remote
update call of `v`. -/
def concerns (v : Ver) : Event → Bool
  | Event.ReadLastIp f => decide (f = v.file)
  | Event.CacheLastIp f _ => decide (f = v.file)
  | Event.UpdateAddr4 _ => decide (v = Ver.v4)
  | Event.UpdateAddr6 _ => decide (v = Ver.v6)
  | Event.Printf _ => false

/-- The part of a trace that concerns version `v`. -/
def about (v : Ver) (t : List Event) : List Event :=
  t.filter (concerns v)

/-- The cached value as `main` sees it: a missing file reads as `""`. -/
def cachedValue (fs : Files) (v : Ver) : String :=
  (fs.get v.file).getD ""

/-- The first entry of the list whose `IpVer` is that of `v`. -/
def firstOf (v : Ver) (addrs : List IpAddress) : Option IpAddress :=
  addrs.find? fun a => a.IpVer == v.num

/-- A world in which every remote call and every cache write succeeds. -/
def World.allOk : World :=
  { remote := fun _ => RemoteErr.nil, write := fun _ => WriteResult.ok }

/-! ## One version at a time

The effects of a run that concern one version are those of a small machine
that sees only the entries of that version (with their list positions), the
version's flag and the version's cache file. -/

/-- Entries whose `IpVer` is `n`, each with its position in the list,
positions counted from `i`. -/
def verEntries (n : Int) : Nat → List IpAddress → List (Nat × String)
  | _, [] => []
  | i, a :: rest =>
    if a.IpVer = n then (i, a.Address) :: verEntries n (i + 1) rest
    else verEntries n (i + 1) rest

/-- Content of a file after a write of `addr` with result `res`. -/
def afterWrite (res : WriteResult) (addr : String) : Option String :=
  match res with
  | WriteResult.ok => some addr
  | WriteResult.failed residue => residue

/-- One entry of version `v` seen with flag `h` and cache content `c`:
the new flag, the new cache content and the effects. -/
def slotStep (write : Nat → WriteResult) (v : Ver) (h : Bool) (c : Option String)
    (e : Nat × String) : Bool × Option String × List Event :=
  if h then (true, c, [])
  else if c.getD "" = e.2 then (false, c, [Event.ReadLastIp v.file])
  else (true, afterWrite (write e.1) e.2,
        [Event.ReadLastIp v.file, v.update e.2, Event.CacheLastIp v.file e.2])

/-- The entries of version `v` processed in order: effects and final cache
content. -/
def slotRun (write : Nat → WriteResult) (v : Ver) :
    Bool → Option String → List (Nat × String) → List Event × Option String
  | _, c, [] => ([], c)
  | h, c, e :: rest =>
    let st := slotStep write v h c e
    let r := slotRun write v st.1 st.2.1 rest
    (st.2.2 ++ r.1, r.2)

/-! ## Vocabulary for the scanner claims -/

/-- The interface with the entries satisfying `drop` removed from the address
list the platform reports. -/
def withoutAddrs (drop : Addr → Bool) (ifc : net.Interface) : net.Interface :=
  { ifc with Addrs := (ifc.Addrs.1.filter fun a => !drop a, ifc.Addrs.2) }

/-- An entry reported the way Go reports IPv6 interface addresses (a mask of
16 bytes) whose address is outside `2000::/3`. -/
def ipv6Outside : Addr → Bool
  | Addr.IPNet n => n.Mask.length == 16 && !IPNet.Contains ipv6Unicast n.IP
  | Addr.other _ => false

/-- An entry whose address is loopback, link-local unicast, multicast or
unspecified. -/
def notGlobal : Addr → Bool
  | Addr.IPNet n =>
    IP.IsLoopback n.IP || IP.IsLinkLocalUnicast n.IP || IP.IsMulticast n.IP
      || IP.IsUnspecified n.IP
  | Addr.other _ => false

/-- An up interface `pppoe-wan` whose addresses are reported with the usual
subnet prefixes: `203.0.113.7/24` and `2001:4860::1/64`. -/
def subnetExample : List net.Interface :=
  [{ Name := "pppoe-wan", Flags := 1,
     Addrs := ([Addr.IPNet ⟨IPv4 203 0 113 7, [255, 255, 255, 0]⟩,
                Addr.IPNet ⟨[0x20, 0x01, 0x48, 0x60, 0, 0, 0, 0, 0, 0, 0, 0, 0, 0, 0, 1],
                  [255, 255, 255, 255, 255, 255, 255, 255, 0, 0, 0, 0, 0, 0, 0, 0]⟩],
               none) }]

/-- An up interface `pppoe-wan` with host addresses: `198.51.100.9/32`,
`2001:4860::1/128`, the unique-local `fd00::1/128` and the loopback
`127.0.0.1/32`. -/
def hostInterface : net.Interface :=
  { Name := "pppoe-wan", Flags := 1,
    Addrs := ([Addr.IPNet ⟨IPv4 198 51 100 9, [255, 255, 255, 255]⟩,
               Addr.IPNet ⟨[0x20, 0x01, 0x48, 0x60, 0, 0, 0, 0, 0, 0, 0, 0, 0, 0, 0, 1],
                 List.replicate 16 255⟩,
               Addr.IPNet ⟨[0xfd, 0, 0, 0, 0, 0, 0, 0, 0, 0, 0, 0, 0, 0, 0, 1],
                 List.replicate 16 255⟩,
               Addr.IPNet ⟨IPv4 127 0 0 1, [255, 255, 255, 255]⟩],
              none) }

/-- The platform reporting a down interface `eth0` and `hostInterface`. -/
def hostExample : List net.Interface :=
  [{ Name := "eth0", Flags := 0,
     Addrs := ([Addr.IPNet ⟨IPv4 198 51 100 200, [255, 255, 255, 255]⟩], none) },
   hostInterface]

/-- An up interface `pppoe-wan` with the private addresses `192.168.1.10/24`
and `10.0.0.1/32`. -/
def privateExample : List net.Interface :=
  [{ Name := "pppoe-wan", Flags := 1,
     Addrs := ([Addr.IPNet ⟨IPv4 192 168 1 10, [255, 255, 255, 0]⟩,
                Addr.IPNet ⟨IPv4 10 0 0 1, [255, 255, 255, 255]⟩],
               none) }]

/-- An interface whose address list cannot be read: its method `Addrs()`
returned an error, which in Go comes with a nil slice. -/
def net.Interface.addrsUnreadable (ifc : net.Interface) : Bool :=
  ifc.Addrs.2.isSome && ifc.Addrs.1.isEmpty

/-- The platform reporting a down interface `eth0`, an up interface `wlan0`
whose address list cannot be read, and `hostInterface`. -/
def mixedExample : List net.Interface :=
  [{ Name := "eth0", Flags := 0,
     Addrs := ([Addr.IPNet ⟨IPv4 198 51 100 200, [255, 255, 255, 255]⟩], none) },
   { Name := "wlan0", Flags := 1, Addrs := ([], some "route ip+net: no such device") },
   hostInterface]

/-! ## Vocabulary for the behaviour claims -/

/-- Whether an entry is of version `v` with a value different from `cached`. -/
def changedEntry (v : Ver) (cached : String) (a : IpAddress) : Bool :=
  a.IpVer == v.num && a.Address != cached

/-- The entries of version `v`, in list order. -/
def entriesOf (v : Ver) (addrs : List IpAddress) : List IpAddress :=
  addrs.filter fun a => a.IpVer == v.num

/-- Whether all entries of version `v` carry the same value. -/
def sameValue (v : Ver) (addrs : List IpAddress) : Prop :=
  ∀ a ∈ addrs, ∀ b ∈ addrs, a.IpVer = v.num → b.IpVer = v.num → a.Address = b.Address

/-- The width of a mask in bits, as `Mask.Size()` reports it (its second
result). -/
def maskWidth (m : IPMask) : Int := (IPMask.Size m).2

/-- The entries the scanner keeps, as described: IP networks whose IP is
global-unicast and whose mask is either 128 bits wide with the IP inside
`2000::/3`, or 32 bits wide. -/
def isKept : Addr → Bool
  | Addr.IPNet n =>
    IP.IsGlobalUnicast n.IP
      && ((maskWidth n.Mask == 128 && IPNet.Contains ipv6Unicast n.IP)
          || maskWidth n.Mask == 32)
  | Addr.other _ => false

/-- The record of a kept entry, as described: tagged 6 when the mask is 128
bits wide, tagged 4 when it is 32 bits wide, with the text of the IP. -/
def recordOf : Addr → IpAddress
  | Addr.IPNet n =>
    { IpVer := if maskWidth n.Mask = 128 then 6 else 4, Address := IP.String n.IP }
  | Addr.other text => { IpVer := 0, Address := text }

end Dnspod

namespace Dnspod

/-! ## Shared lemmas -/

theorem about_append (v : Ver) (t u : List Event) :
    about v (t ++ u) = about v t ++ about v u := by
  simp [about]

theorem about_cons (v : Ver) (e : Event) (t : List Event) :
    about v (e :: t) = if concerns v e then e :: about v t else about v t := by
  simp [about, List.filter_cons]

theorem about_nil (v : Ver) : about v [] = [] := rfl

theorem lastValue_eq (fs : Files) (f : FileName) :
    (if (ReadLastIp fs f).2 then "" else (ReadLastIp fs f).1) = (fs.get f).getD "" := by
  unfold ReadLastIp
  cases fs.get f <;> simp

theorem CacheLastIp_files (res : WriteResult) (fs : Files) (f : FileName) (a : String) :
    (CacheLastIp res fs f a).1 = fs.set f (afterWrite res a) := by
  cases res <;> rfl

theorem about_RequestToDnspod (v : Ver) (r : RemoteErr) :
    about v (RequestToDnspod r).1 = [] := by
  cases r <;> simp [RequestToDnspod, about, concerns]

theorem Files.get_set (fs : Files) (f g : FileName) (c : Option String) :
    (fs.set f c).get g = if g = f then c else fs.get g := by
  cases f <;> cases g <;> simp [Files.get, Files.set]

theorem loopBody_other (w : World) (v : Ver) (i : Nat) (s : LoopState) (a : IpAddress)
    (h : a.IpVer ≠ v.num) :
    about v (loopBody w i s a).trace = about v s.trace
      ∧ (loopBody w i s a).files.get v.file = s.files.get v.file
      ∧ (loopBody w i s a).handled v = s.handled v := by
  unfold loopBody
  simp only [lastValue_eq, CacheLastIp_files, UpdateAddr4, UpdateAddr6]
  cases v <;> simp only [Ver.num] at h <;> split_ifs <;>
    simp_all [about_append, about_cons, about_nil, about_RequestToDnspod, Files.get_set,
      LoopState.handled, Ver.file, Ver.update, concerns]

theorem loopBody_same (w : World) (v : Ver) (i : Nat) (s : LoopState) (a : IpAddress)
    (h : a.IpVer = v.num) :
    about v (loopBody w i s a).trace
        = about v s.trace
          ++ (slotStep w.write v (s.handled v) (s.files.get v.file) (i, a.Address)).2.2
      ∧ (loopBody w i s a).files.get v.file
        = (slotStep w.write v (s.handled v) (s.files.get v.file) (i, a.Address)).2.1
      ∧ (loopBody w i s a).handled v
        = (slotStep w.write v (s.handled v) (s.files.get v.file) (i, a.Address)).1 := by
  unfold loopBody slotStep
  simp only [lastValue_eq, CacheLastIp_files, UpdateAddr4, UpdateAddr6]
  cases v <;> simp only [Ver.num] at h <;> split_ifs <;>
    simp_all [about_append, about_cons, about_nil, about_RequestToDnspod, Files.get_set,
      LoopState.handled, Ver.file, Ver.update, concerns]

theorem loopFrom_slotRun (w : World) (v : Ver) :
    ∀ (addrs : List IpAddress) (i : Nat) (s : LoopState),
      about v (loopFrom w i s addrs).trace
          = about v s.trace ++ (slotRun w.write v (s.handled v) (s.files.get v.file)
              (verEntries v.num i addrs)).1
        ∧ (loopFrom w i s addrs).files.get v.file
          = (slotRun w.write v (s.handled v) (s.files.get v.file)
              (verEntries v.num i addrs)).2 := by
  intro addrs
  induction addrs with
  | nil => intro i s; simp [loopFrom, verEntries, slotRun]
  | cons a rest ih =>
    intro i s
    have hrec := ih (i + 1) (loopBody w i s a)
    by_cases h : a.IpVer = v.num
    · obtain ⟨h1, h2, h3⟩ := loopBody_same w v i s a h
      simp only [loopFrom, verEntries, h, if_true, slotRun]
      rw [hrec.1, hrec.2, h1, h2, h3]
      simp [List.append_assoc]
    · obtain ⟨h1, h2, h3⟩ := loopBody_other w v i s a h
      simp only [loopFrom, verEntries, h, if_false]
      rw [hrec.1, hrec.2, h1, h2, h3]
      exact ⟨rfl, rfl⟩

/-- The part of a run that concerns `v`, as the one-version machine. -/
theorem reconcile_slotRun (w : World) (v : Ver) (addrs : List IpAddress) (fs : Files) :
    about v (reconcile w addrs fs).trace
        = (slotRun w.write v false (fs.get v.file) (verEntries v.num 0 addrs)).1
      ∧ (reconcile w addrs fs).files.get v.file
        = (slotRun w.write v false (fs.get v.file) (verEntries v.num 0 addrs)).2 := by
  have h := loopFrom_slotRun w v addrs 0
    { v4 := false, v6 := false, files := fs, trace := [] }
  cases v <;> simpa [reconcile, about_nil, LoopState.handled] using h

theorem calls_about (v : Ver) (t : List Event) : calls v (about v t) = calls v t := by
  induction t with
  | nil => rfl
  | cons e t ih =>
    have hc : concerns v e = false → callOf v e = none := by
      cases v <;> cases e <;> simp [concerns, callOf]
    rw [about_cons]
    unfold calls at ih ⊢
    cases hce : concerns v e
    · simp [List.filterMap_cons, hc hce, ih]
    · simp [List.filterMap_cons, ih]

theorem writesTo_about (v : Ver) (t : List Event) :
    writesTo v.file (about v t) = writesTo v.file t := by
  induction t with
  | nil => rfl
  | cons e t ih =>
    have hc : concerns v e = false → writeOf v.file e = none := by
      cases v <;> cases e <;> simp [concerns, writeOf, Ver.file]
    rw [about_cons]
    unfold writesTo at ih ⊢
    cases hce : concerns v e
    · simp [List.filterMap_cons, hc hce, ih]
    · simp [List.filterMap_cons, ih]

theorem readsOf_about (v : Ver) (t : List Event) :
    readsOf v.file (about v t) = readsOf v.file t := by
  induction t with
  | nil => rfl
  | cons e t ih =>
    have hc : concerns v e = false → isReadOf v.file e = false := by
      cases v <;> cases e <;> simp [concerns, isReadOf, Ver.file]
    rw [about_cons]
    unfold readsOf at ih ⊢
    cases hce : concerns v e
    · simp [List.filter_cons, hc hce, ih]
    · cases hr : isReadOf v.file e <;> simp [List.filter_cons, hr, ih]

theorem slotRun_handled (write : Nat → WriteResult) (v : Ver) (c : Option String) :
    ∀ es : List (Nat × String), slotRun write v true c es = ([], c) := by
  intro es
  induction es with
  | nil => rfl
  | cons e rest ih => simp [slotRun, slotStep, ih]

theorem calls_nil (v : Ver) : calls v [] = [] := rfl

theorem calls_update (v : Ver) (x : String) (t : List Event) :
    calls v (v.update x :: t) = x :: calls v t := by
  cases v <;> simp [calls, callOf, Ver.update, List.filterMap_cons]

theorem calls_read (v : Ver) (f : FileName) (t : List Event) :
    calls v (Event.ReadLastIp f :: t) = calls v t := by
  cases v <;> simp [calls, callOf, List.filterMap_cons]

theorem calls_write (v : Ver) (f : FileName) (x : String) (t : List Event) :
    calls v (Event.CacheLastIp f x :: t) = calls v t := by
  cases v <;> simp [calls, callOf, List.filterMap_cons]

theorem calls_slotRun_le (write : Nat → WriteResult) (v : Ver) :
    ∀ (es : List (Nat × String)) (c : Option String),
      (calls v (slotRun write v false c es).1).length ≤ 1 := by
  intro es
  induction es with
  | nil => intro c; simp [slotRun, calls]
  | cons e rest ih =>
    intro c
    by_cases h : c.getD "" = e.2
    · simpa [slotRun, slotStep, h, calls_read] using ih c
    · simp [slotRun, slotStep, h, calls_read, calls_update, calls_write, slotRun_handled,
        calls_nil]

theorem verEntries_firstOf_none (v : Ver) :
    ∀ (addrs : List IpAddress) (i : Nat), firstOf v addrs = none →
      verEntries v.num i addrs = [] := by
  intro addrs
  induction addrs with
  | nil => intro i _; rfl
  | cons b rest ih =>
    intro i h
    by_cases hb : b.IpVer = v.num
    · simp [firstOf, List.find?_cons, hb] at h
    · have h2 : firstOf v rest = none := by
        simpa [firstOf, List.find?_cons, hb] using h
      simp [verEntries, hb, ih (i + 1) h2]

theorem verEntries_firstOf_some (v : Ver) (a : IpAddress) :
    ∀ (addrs : List IpAddress) (i : Nat), firstOf v addrs = some a →
      ∃ rest, verEntries v.num i addrs
        = (i + addrs.findIdx (fun b => b.IpVer == v.num), a.Address) :: rest := by
  intro addrs
  induction addrs with
  | nil => intro i h; simp [firstOf] at h
  | cons b tl ih =>
    intro i h
    by_cases hb : b.IpVer = v.num
    · have hab : b = a := by simpa [firstOf, List.find?_cons, hb] using h
      subst hab
      exact ⟨verEntries v.num (i + 1) tl, by simp [verEntries, hb, List.findIdx_cons]⟩
    · have h2 : firstOf v tl = some a := by
        simpa [firstOf, List.find?_cons, hb] using h
      obtain ⟨rest, hrest⟩ := ih (i + 1) h2
      refine ⟨rest, ?_⟩
      have hbf : (b.IpVer == v.num) = false := by simpa using hb
      simp only [verEntries, hb, if_false, hrest, List.findIdx_cons, hbf, cond_false]
      rw [Nat.add_assoc, Nat.add_comm 1]

theorem slotRun_changed (write : Nat → WriteResult) (v : Ver) (c : Option String)
    (i : Nat) (x : String) (rest : List (Nat × String)) (h : c.getD "" ≠ x) :
    slotRun write v false c ((i, x) :: rest)
      = ([Event.ReadLastIp v.file, v.update x, Event.CacheLastIp v.file x],
         afterWrite (write i) x) := by
  simp [slotRun, slotStep, h, slotRun_handled]

theorem firstOf_mem (v : Ver) (a : IpAddress) (addrs : List IpAddress)
    (h : firstOf v addrs = some a) : a ∈ addrs :=
  List.mem_of_find?_eq_some h

/-! ## The reconciler: claims -/

/-- C1: whatever the address list, the initial content of the two cache files
and the outcomes of the remote calls and cache writes, one run of the
reconciler loop issues at most one remote update call for version 4 and at
most one for version 6. -/
theorem C1_at_most_one_call_per_version (w : World) (addrs : List IpAddress) (fs : Files) :
    (calls Ver.v4 (reconcile w addrs fs).trace).length ≤ 1
      ∧ (calls Ver.v6 (reconcile w addrs fs).trace).length ≤ 1 := by
  constructor
  · rw [← calls_about, (reconcile_slotRun w Ver.v4 addrs fs).1]
    exact calls_slotRun_le _ _ _ _
  · rw [← calls_about, (reconcile_slotRun w Ver.v6 addrs fs).1]
    exact calls_slotRun_le _ _ _ _

/-- C2 (evaluation at the failing input): with two version-6 entries of
different value and no cache files, all writes succeeding, the first run
submits the first entry and caches it; the second run on the same list then
finds the first entry equal to the cache, leaves the flag unset, and submits
the second entry: one remote call instead of none. -/
theorem C2_second_run_issues_a_call :
    (reconcile World.allOk
        [⟨6, "2001:4860::1"⟩, ⟨6, "2001:4860::2"⟩] ⟨none, none⟩).files
        = ⟨none, some "2001:4860::1"⟩
      ∧ (reconcile World.allOk [⟨6, "2001:4860::1"⟩, ⟨6, "2001:4860::2"⟩]
          (reconcile World.allOk
            [⟨6, "2001:4860::1"⟩, ⟨6, "2001:4860::2"⟩] ⟨none, none⟩).files).trace
        = [Event.ReadLastIp FileName.LAST_IP6, Event.ReadLastIp FileName.LAST_IP6,
           Event.UpdateAddr6 "2001:4860::2",
           Event.CacheLastIp FileName.LAST_IP6 "2001:4860::2"] := by
  decide

/-- C3 (evaluation at the failing input): with two version-4 entries and the
cache equal to the first, the iteration for the first entry leaves the flag
`v4` unset, and the run reads the cache again for the second entry, submits
it to the remote update and writes it to the cache. -/
theorem C3_equal_first_entry_leaves_flag_unset :
    (loopBody World.allOk 0
        { v4 := false, v6 := false, files := ⟨some "203.0.113.7", none⟩, trace := [] }
        ⟨4, "203.0.113.7"⟩).v4 = false
      ∧ (reconcile World.allOk [⟨4, "203.0.113.7"⟩, ⟨4, "198.51.100.9"⟩]
          ⟨some "203.0.113.7", none⟩).trace
        = [Event.ReadLastIp FileName.LAST_IP, Event.ReadLastIp FileName.LAST_IP,
           Event.UpdateAddr4 "198.51.100.9",
           Event.CacheLastIp FileName.LAST_IP "198.51.100.9"] := by
  decide

/-- C4: change detection.  For each version `v` (4 with file `LAST_IP`, 6
with file `LAST_IP6`): when the list has an entry of version `v` and the
cached value of `v` (a missing file read as the empty string) differs from
the value of the first such entry, the run issues exactly one remote update
call of version `v`, carrying that value, and, the cache write of that
iteration succeeding, the cache file of `v` holds that value afterwards. -/
theorem C4_change_detection (w : World) (v : Ver) (addrs : List IpAddress) (fs : Files)
    (a : IpAddress) (hfirst : firstOf v addrs = some a)
    (hne : cachedValue fs v ≠ a.Address) :
    calls v (reconcile w addrs fs).trace = [a.Address]
      ∧ (w.write (addrs.findIdx fun b => b.IpVer == v.num) = WriteResult.ok →
          (reconcile w addrs fs).files.get v.file = some a.Address) := by
  obtain ⟨rest, hrest⟩ := verEntries_firstOf_some v a addrs 0 hfirst
  have hrun := reconcile_slotRun w v addrs fs
  rw [hrest, slotRun_changed _ _ _ _ _ _ hne] at hrun
  constructor
  · rw [← calls_about, hrun.1]
    simp [calls_read, calls_update, calls_write, calls_nil]
  · intro hw
    rw [hrun.2]
    simp only [Nat.zero_add] at hw ⊢
    simp [hw, afterWrite]

/-- C4 at a concrete input: cached `198.51.100.9`, detected `203.0.113.7`. -/
theorem C4_change_detection_witness :
    calls Ver.v4 (reconcile World.allOk [⟨6, "2001:4860::1"⟩, ⟨4, "203.0.113.7"⟩]
        ⟨some "198.51.100.9", none⟩).trace = ["203.0.113.7"]
      ∧ (World.allOk.write
            ([(⟨6, "2001:4860::1"⟩ : IpAddress), ⟨4, "203.0.113.7"⟩].findIdx
              fun b => b.IpVer == Ver.v4.num) = WriteResult.ok →
          (reconcile World.allOk [⟨6, "2001:4860::1"⟩, ⟨4, "203.0.113.7"⟩]
            ⟨some "198.51.100.9", none⟩).files.get Ver.v4.file = some "203.0.113.7") :=
  C4_change_detection World.allOk Ver.v4 [⟨6, "2001:4860::1"⟩, ⟨4, "203.0.113.7"⟩]
    ⟨some "198.51.100.9", none⟩ ⟨4, "203.0.113.7"⟩ (by decide) (by decide)

/-- C5: missing cache.  When no address value is the empty string and both
cache files are absent or unreadable, then for each version `v` the effects
of the run that concern `v` are: nothing when the list has no entry of
version `v`; otherwise one read of the cache file, one remote update call
carrying the value of the first entry of version `v`, and then one write of
that value to the cache file of `v`.  In particular the list
`[{4,"203.0.113.7"},{6,"2001:4860::1"}]` yields two remote calls and two
cache writes. -/
theorem C5_missing_cache (w : World) (addrs : List IpAddress)
    (hne : ∀ a ∈ addrs, a.Address ≠ "") :
    (∀ v : Ver, about v (reconcile w addrs ⟨none, none⟩).trace
        = match firstOf v addrs with
          | none => []
          | some a => [Event.ReadLastIp v.file, v.update a.Address,
                       Event.CacheLastIp v.file a.Address])
      ∧ (calls Ver.v4 (reconcile w [⟨4, "203.0.113.7"⟩, ⟨6, "2001:4860::1"⟩]
            ⟨none, none⟩).trace = ["203.0.113.7"]
          ∧ calls Ver.v6 (reconcile w [⟨4, "203.0.113.7"⟩, ⟨6, "2001:4860::1"⟩]
            ⟨none, none⟩).trace = ["2001:4860::1"]
          ∧ writesTo FileName.LAST_IP (reconcile w [⟨4, "203.0.113.7"⟩, ⟨6, "2001:4860::1"⟩]
            ⟨none, none⟩).trace = ["203.0.113.7"]
          ∧ writesTo FileName.LAST_IP6 (reconcile w [⟨4, "203.0.113.7"⟩, ⟨6, "2001:4860::1"⟩]
            ⟨none, none⟩).trace = ["2001:4860::1"]) := by
  have key : ∀ (l : List IpAddress), (∀ a ∈ l, a.Address ≠ "") → ∀ v : Ver,
      about v (reconcile w l ⟨none, none⟩).trace
        = match firstOf v l with
          | none => []
          | some a => [Event.ReadLastIp v.file, v.update a.Address,
                       Event.CacheLastIp v.file a.Address] := by
    intro l hl v
    have hrun := (reconcile_slotRun w v l ⟨none, none⟩).1
    cases hf : firstOf v l with
    | none =>
      rw [hrun, verEntries_firstOf_none v l 0 hf]
      rfl
    | some a =>
      obtain ⟨rest, hrest⟩ := verEntries_firstOf_some v a l 0 hf
      have hc : (Files.get ⟨none, none⟩ v.file).getD "" ≠ a.Address := by
        have := hl a (firstOf_mem v a l hf)
        cases v <;> simpa [Files.get, Ver.file] using fun h => this h.symm
      rw [hrun, hrest, slotRun_changed _ _ _ _ _ _ hc]
  refine ⟨key addrs hne, ?_⟩
  have hex : ∀ a ∈ [(⟨4, "203.0.113.7"⟩ : IpAddress), ⟨6, "2001:4860::1"⟩], a.Address ≠ "" := by
    decide
  have h4 := key _ hex Ver.v4
  have h6 := key _ hex Ver.v6
  refine ⟨?_, ?_, ?_, ?_⟩
  · rw [← calls_about, h4]; decide
  · rw [← calls_about, h6]; decide
  · rw [show FileName.LAST_IP = Ver.v4.file from rfl, ← writesTo_about, h4]; decide
  · rw [show FileName.LAST_IP6 = Ver.v6.file from rfl, ← writesTo_about, h6]; decide

/-- C5 at the list of the example: no cache files, two detected addresses. -/
theorem C5_missing_cache_witness :
    (∀ a ∈ [(⟨4, "203.0.113.7"⟩ : IpAddress), ⟨6, "2001:4860::1"⟩], a.Address ≠ "")
      ∧ (reconcile World.allOk [⟨4, "203.0.113.7"⟩, ⟨6, "2001:4860::1"⟩] ⟨none, none⟩).trace
          = [Event.ReadLastIp FileName.LAST_IP, Event.UpdateAddr4 "203.0.113.7",
             Event.CacheLastIp FileName.LAST_IP "203.0.113.7",
             Event.ReadLastIp FileName.LAST_IP6, Event.UpdateAddr6 "2001:4860::1",
             Event.CacheLastIp FileName.LAST_IP6 "2001:4860::1"]
      ∧ calls Ver.v4 (reconcile World.allOk [⟨4, "203.0.113.7"⟩, ⟨6, "2001:4860::1"⟩]
            ⟨none, none⟩).trace = ["203.0.113.7"] :=
  ⟨by decide, by decide,
    (C5_missing_cache World.allOk [⟨4, "203.0.113.7"⟩, ⟨6, "2001:4860::1"⟩]
      (by decide)).2.1⟩

/-- C6: a failed remote update neither aborts the run nor prevents the cache
write.  Two runs on the same address list and the same initial cache files
that differ only in what the remote update calls return (success, an SDK
error, another error) issue the same remote calls with the same values,
perform the same cache writes, and end with the same content in both cache
files. -/
theorem C6_remote_failure_is_ignored (remote remote' : Nat → RemoteErr)
    (write : Nat → WriteResult) (addrs : List IpAddress) (fs : Files) :
    (∀ v : Ver, calls v (reconcile ⟨remote, write⟩ addrs fs).trace
        = calls v (reconcile ⟨remote', write⟩ addrs fs).trace)
      ∧ (∀ f : FileName, writesTo f (reconcile ⟨remote, write⟩ addrs fs).trace
        = writesTo f (reconcile ⟨remote', write⟩ addrs fs).trace)
      ∧ (reconcile ⟨remote, write⟩ addrs fs).files
        = (reconcile ⟨remote', write⟩ addrs fs).files := by
  have hab : ∀ v : Ver, about v (reconcile ⟨remote, write⟩ addrs fs).trace
      = about v (reconcile ⟨remote', write⟩ addrs fs).trace := by
    intro v
    rw [(reconcile_slotRun ⟨remote, write⟩ v addrs fs).1,
      (reconcile_slotRun ⟨remote', write⟩ v addrs fs).1]
  have hget : ∀ v : Ver, (reconcile ⟨remote, write⟩ addrs fs).files.get v.file
      = (reconcile ⟨remote', write⟩ addrs fs).files.get v.file := by
    intro v
    rw [(reconcile_slotRun ⟨remote, write⟩ v addrs fs).2,
      (reconcile_slotRun ⟨remote', write⟩ v addrs fs).2]
  refine ⟨?_, ?_, ?_⟩
  · intro v
    rw [← calls_about, hab v, calls_about]
  · intro f
    cases f
    · have := writesTo_about Ver.v4
      simp only [Ver.file] at this
      rw [← this, hab Ver.v4, this]
    · have := writesTo_about Ver.v6
      simp only [Ver.file] at this
      rw [← this, hab Ver.v6, this]
  · have h4 := hget Ver.v4
    have h6 := hget Ver.v6
    simp only [Ver.file, Files.get] at h4 h6
    cases hr : (reconcile ⟨remote, write⟩ addrs fs).files
    cases hr' : (reconcile ⟨remote', write⟩ addrs fs).files
    simp_all


/-! ## The scanner: shared lemmas -/

theorem scanAddrs_foldl (addrs : List Addr) (acc : List IpAddress) :
    addrs.foldl
        (fun addrs_to_save address =>
          match acceptAddr address with
          | some x => addrs_to_save ++ [x]
          | none => addrs_to_save)
        acc
      = acc ++ addrs.filterMap acceptAddr := by
  induction addrs generalizing acc with
  | nil => simp
  | cons a rest ih =>
    cases h : acceptAddr a <;> simp [List.foldl_cons, List.filterMap_cons, h, ih]

theorem scanAddrs_eq (addrs : List Addr) : scanAddrs addrs = addrs.filterMap acceptAddr := by
  simpa [scanAddrs] using scanAddrs_foldl addrs []

theorem records_foldl (ifs : List net.Interface) (acc : List NetInterface) :
    ifs.foldl
        (fun iface ifc =>
          if ifc.isUp then iface ++ [{ Name := ifc.Name, Addr := scanAddrs ifc.Addrs.1 }]
          else iface)
        acc
      = acc ++ (ifs.filter net.Interface.isUp).map
          fun ifc => { Name := ifc.Name, Addr := scanAddrs ifc.Addrs.1 } := by
  induction ifs generalizing acc with
  | nil => simp
  | cons a rest ih =>
    cases h : a.isUp <;> simp [List.foldl_cons, List.filter_cons, h, ih]

theorem GetNetInterface_ok (ifs : List net.Interface) :
    GetNetInterface (ifs, none)
      = ((ifs.filter net.Interface.isUp).map
          fun ifc => { Name := ifc.Name, Addr := scanAddrs ifc.Addrs.1 }, none) := by
  simp [GetNetInterface, records_foldl]

theorem record_mem (ifs : List net.Interface) (ifc : net.Interface) (hmem : ifc ∈ ifs)
    (hup : ifc.isUp = true) :
    ({ Name := ifc.Name, Addr := scanAddrs ifc.Addrs.1 } : NetInterface)
      ∈ (GetNetInterface (ifs, none)).1 := by
  rw [GetNetInterface_ok]
  exact List.mem_map.2 ⟨ifc, List.mem_filter.2 ⟨hmem, hup⟩, rfl⟩

theorem record_origin (ifs : List net.Interface) (r : NetInterface)
    (hr : r ∈ (GetNetInterface (ifs, none)).1) (x : IpAddress) (hx : x ∈ r.Addr) :
    ∃ ifc ∈ ifs, ifc.isUp = true ∧ ifc.Name = r.Name ∧ r.Addr = scanAddrs ifc.Addrs.1
      ∧ ∃ a ∈ ifc.Addrs.1, acceptAddr a = some x := by
  rw [GetNetInterface_ok] at hr
  obtain ⟨ifc, hifc, rfl⟩ := List.mem_map.1 hr
  obtain ⟨hmem, hup⟩ := List.mem_filter.1 hifc
  refine ⟨ifc, hmem, hup, rfl, rfl, ?_⟩
  rw [scanAddrs_eq] at hx
  exact List.mem_filterMap.1 hx

theorem acceptAddr_some (a : Addr) (x : IpAddress) (h : acceptAddr a = some x) :
    ∃ n : IPNet, a = Addr.IPNet n ∧ IP.IsGlobalUnicast n.IP = true
      ∧ x.Address = IP.String n.IP
      ∧ ((x.IpVer = 6 ∧ (IPMask.Size n.Mask).2 = 128
            ∧ IPNet.Contains ipv6Unicast n.IP = true)
          ∨ (x.IpVer = 4 ∧ (IPMask.Size n.Mask).2 = 32)) := by
  cases a with
  | other t => simp [acceptAddr] at h
  | IPNet n =>
    refine ⟨n, rfl, ?_⟩
    unfold acceptAddr at h
    simp only at h
    split_ifs at h with h1 h2 h3
    · simp only [Bool.and_eq_true, beq_iff_eq] at h2
      cases h
      exact ⟨h1, rfl, Or.inl ⟨rfl, h2.1, h2.2⟩⟩
    · simp only [beq_iff_eq] at h3
      cases h
      exact ⟨h1, rfl, Or.inr ⟨rfl, h3⟩⟩

set_option maxRecDepth 20000 in
theorem byte_block_facts :
    ∀ b : Byte, (0x20 : Byte) &&& 0xe0 = b &&& 0xe0 → ¬ (b &&& 0xfe = 0xfc) := by
  decide

set_option maxRecDepth 20000 in
/-- The inner loop of `simpleMaskLength` has ended within the eight rounds
given to `countOnes`: the loop condition `v&0x80 != 0` is false on exit. -/
theorem countOnes_ended : ∀ v : Byte, (countOnes 8 0 v).2 &&& 0x80 = 0 := by
  decide

theorem To4_length (ip x : IP) (h : IP.To4 ip = some x) : x.length = 4 := by
  unfold IP.To4 at h
  split_ifs at h with h1 h2
  · cases h; exact h1
  · cases h
    simp only [Bool.and_eq_true, decide_eq_true_eq] at h2
    simp [h2.1.1.1, IPv6len]

theorem Contains_ipv6Unicast (ip : IP) (h : IPNet.Contains ipv6Unicast ip = true) :
    IP.To4 ip = none ∧ ip.length = 16
      ∧ (0x20 : Byte) &&& 0xe0 = ip.getD 0 0 &&& 0xe0 := by
  have hnm : networkNumberAndMask ipv6Unicast = some (ipv6Unicast.IP, ipv6Unicast.Mask) := by
    decide
  unfold IPNet.Contains at h
  rw [hnm] at h
  cases h4 : IP.To4 ip with
  | some x =>
    have hx := To4_length ip x h4
    simp [h4, hx, ipv6Unicast] at h
  | none =>
    simp only [h4, Option.getD_none, Option.getD_some] at h
    split_ifs at h with hl
    have hlen : ip.length = 16 := by simpa [ipv6Unicast] using hl
    refine ⟨rfl, hlen, ?_⟩
    have h0 := (List.all_eq_true.1 h) 0 (by simp [hlen])
    simpa [ipv6Unicast] using h0

theorem Contains_not_private (ip : IP) (h : IPNet.Contains ipv6Unicast ip = true) :
    IP.IsPrivate ip = false := by
  obtain ⟨h4, hlen, hb⟩ := Contains_ipv6Unicast ip h
  have hb2 := byte_block_facts (ip.getD 0 0) hb
  simp only [IP.IsPrivate, h4, Bool.and_eq_false_iff]
  exact Or.inr (beq_eq_false_iff_ne.2 hb2)

theorem Size_bits (m : IPMask) :
    (IPMask.Size m).2 = 0 ∨ (IPMask.Size m).2 = (m.length : Int) * 8 := by
  unfold IPMask.Size
  simp only
  split_ifs
  · exact Or.inl rfl
  · exact Or.inr rfl

theorem acceptAddr_v6 (n : IPNet) (hgu : IP.IsGlobalUnicast n.IP = true)
    (hbits : (IPMask.Size n.Mask).2 = 128)
    (hin : IPNet.Contains ipv6Unicast n.IP = true) :
    acceptAddr (Addr.IPNet n) = some { IpVer := 6, Address := IP.String n.IP } := by
  simp [acceptAddr, hgu, hbits, hin]

theorem acceptAddr_v4 (n : IPNet) (hgu : IP.IsGlobalUnicast n.IP = true)
    (hbits : (IPMask.Size n.Mask).2 = 32) :
    acceptAddr (Addr.IPNet n) = some { IpVer := 4, Address := IP.String n.IP } := by
  simp [acceptAddr, hgu, hbits]

theorem acceptAddr_v6_outside (n : IPNet) (hlen : n.Mask.length = 16)
    (hout : IPNet.Contains ipv6Unicast n.IP = false) :
    acceptAddr (Addr.IPNet n) = none := by
  have hne : (IPMask.Size n.Mask).2 ≠ 32 := by
    rcases Size_bits n.Mask with h | h <;> rw [h] <;> simp [hlen]
  simp [acceptAddr, hout, hne]

theorem scanAddrs_filter (keep : Addr → Bool)
    (hdrop : ∀ a, keep a = false → acceptAddr a = none) (addrs : List Addr) :
    scanAddrs (addrs.filter keep) = scanAddrs addrs := by
  rw [scanAddrs_eq, scanAddrs_eq]
  induction addrs with
  | nil => rfl
  | cons a rest ih =>
    cases hk : keep a
    · simp [List.filter_cons, hk, List.filterMap_cons, hdrop a hk, ih]
    · cases ha : acceptAddr a <;> simp [List.filter_cons, hk, List.filterMap_cons, ha, ih]

theorem IsGlobalUnicast_excludes (ip : IP) (h : IP.IsGlobalUnicast ip = true) :
    IP.IsLoopback ip = false ∧ IP.IsLinkLocalUnicast ip = false
      ∧ IP.IsMulticast ip = false ∧ IP.IsUnspecified ip = false := by
  simp only [IP.IsGlobalUnicast, Bool.and_eq_true, Bool.not_eq_true'] at h
  exact ⟨h.1.1.2, h.2, h.1.2, h.1.1.1.2⟩

theorem GetNetInterface_withoutAddrs (drop : Addr → Bool)
    (hdrop : ∀ a, drop a = true → acceptAddr a = none) (ifs : List net.Interface) :
    GetNetInterface (ifs.map (withoutAddrs drop), none) = GetNetInterface (ifs, none) := by
  rw [GetNetInterface_ok, GetNetInterface_ok]
  congr 1
  induction ifs with
  | nil => rfl
  | cons a rest ih =>
    have hup : (withoutAddrs drop a).isUp = a.isUp := rfl
    have hscan : scanAddrs (withoutAddrs drop a).Addrs.1 = scanAddrs a.Addrs.1 :=
      scanAddrs_filter (fun b => !drop b) (fun b hb => hdrop b (by simpa using hb)) a.Addrs.1
    have hname : (withoutAddrs drop a).Name = a.Name := rfl
    cases h : a.isUp <;>
      simp [List.filter_cons, hup, h, hscan, hname, ih]

/-! ## The scanner: claims -/

/-- C7 (counterexample): global-unicast addresses reported with a prefix
shorter than the address width, `203.0.113.7/24` and `2001:4860::1/64`, are
not discarded: both are put in the record. -/
theorem C7_shorter_prefix_is_accepted :
    IPMask.Size [255, 255, 255, 0] = (24, 32)
      ∧ IPMask.Size [255, 255, 255, 255, 255, 255, 255, 255, 0, 0, 0, 0, 0, 0, 0, 0]
          = (64, 128)
      ∧ GetNetInterface (subnetExample, none)
          = ([{ Name := "pppoe-wan",
                Addr := [⟨4, "203.0.113.7"⟩, ⟨6, "2001:4860::1"⟩] }], none) := by
  decide

/-- C7 (amended): every address that `GetNetInterface` puts in a record comes
from an entry of an up interface whose mask is 32 bits wide (tagged 4) or 128
bits wide (tagged 6); the width is the second result of `Mask.Size()`, and the
prefix length (the first result) is not examined: the same entry with any
other mask of the same width is accepted in the same way. -/
theorem C7_accepted_by_mask_width (ifs : List net.Interface) (r : NetInterface)
    (hr : r ∈ (GetNetInterface (ifs, none)).1) (x : IpAddress) (hx : x ∈ r.Addr) :
    ∃ ifc ∈ ifs, ifc.isUp = true ∧ ifc.Name = r.Name ∧
      ∃ n : IPNet, Addr.IPNet n ∈ ifc.Addrs.1 ∧ x.Address = IP.String n.IP
        ∧ IP.IsGlobalUnicast n.IP = true
        ∧ ((x.IpVer = 4 ∧ (IPMask.Size n.Mask).2 = 32)
            ∨ (x.IpVer = 6 ∧ (IPMask.Size n.Mask).2 = 128
                ∧ IPNet.Contains ipv6Unicast n.IP = true))
        ∧ ∀ m : IPMask, (IPMask.Size m).2 = (IPMask.Size n.Mask).2 →
            acceptAddr (Addr.IPNet ⟨n.IP, m⟩) = some x := by
  obtain ⟨ifc, hmem, hup, hname, _, a, ha, hacc⟩ := record_origin ifs r hr x hx
  obtain ⟨n, rfl, hgu, haddr, hcase⟩ := acceptAddr_some a x hacc
  refine ⟨ifc, hmem, hup, hname, n, ha, haddr, hgu, ?_, ?_⟩
  · rcases hcase with ⟨h6, hb, hin⟩ | ⟨h4, hb⟩
    · exact Or.inr ⟨h6, hb, hin⟩
    · exact Or.inl ⟨h4, hb⟩
  · intro m hm
    have hx' : x = { IpVer := x.IpVer, Address := x.Address } := rfl
    rcases hcase with ⟨h6, hb, hin⟩ | ⟨h4, hb⟩
    · rw [acceptAddr_v6 ⟨n.IP, m⟩ hgu (hm.trans hb) hin, hx', h6, haddr]
    · rw [acceptAddr_v4 ⟨n.IP, m⟩ hgu (hm.trans hb), hx', h4, haddr]

/-- C7 (amended) at the record of `203.0.113.7/24`. -/
theorem C7_accepted_by_mask_width_witness :
    ∃ ifc ∈ subnetExample, ifc.isUp = true ∧ ifc.Name = "pppoe-wan" ∧
      ∃ n : IPNet, Addr.IPNet n ∈ ifc.Addrs.1 ∧ "203.0.113.7" = IP.String n.IP
        ∧ IP.IsGlobalUnicast n.IP = true
        ∧ (((4 : Int) = 4 ∧ (IPMask.Size n.Mask).2 = 32)
            ∨ ((4 : Int) = 6 ∧ (IPMask.Size n.Mask).2 = 128
                ∧ IPNet.Contains ipv6Unicast n.IP = true))
        ∧ ∀ m : IPMask, (IPMask.Size m).2 = (IPMask.Size n.Mask).2 →
            acceptAddr (Addr.IPNet ⟨n.IP, m⟩) = some ⟨4, "203.0.113.7"⟩ :=
  C7_accepted_by_mask_width subnetExample
    { Name := "pppoe-wan", Addr := [⟨4, "203.0.113.7"⟩, ⟨6, "2001:4860::1"⟩] }
    (by decide) ⟨4, "203.0.113.7"⟩ (by decide)

/-- C8: for every up interface, its record is in the scan result, and every
entry on it with prefix length 128 (`Mask.Size()` is `(128, 128)`) that is
global-unicast and inside `2000::/3` is in that record tagged 6.  An IPv6
entry (reported, as Go reports IPv6 interface addresses, with a mask of 16
bytes) whose address is outside `2000::/3` is appended under neither tag,
whatever `IsGlobalUnicast` says of it, and the scan result is the same as if
the platform had not reported such entries at all. -/
theorem C8_ipv6_block_2000 (ifs : List net.Interface) (ifc : net.Interface) (hmem : ifc ∈ ifs)
    (hup : ifc.isUp = true) :
    ({ Name := ifc.Name, Addr := scanAddrs ifc.Addrs.1 } : NetInterface)
        ∈ (GetNetInterface (ifs, none)).1
      ∧ (∀ n : IPNet, Addr.IPNet n ∈ ifc.Addrs.1 → IPMask.Size n.Mask = (128, 128) →
          IP.IsGlobalUnicast n.IP = true → IPNet.Contains ipv6Unicast n.IP = true →
          ({ IpVer := 6, Address := IP.String n.IP } : IpAddress) ∈ scanAddrs ifc.Addrs.1)
      ∧ (∀ n : IPNet, n.Mask.length = 16 → IPNet.Contains ipv6Unicast n.IP = false →
          acceptAddr (Addr.IPNet n) = none)
      ∧ GetNetInterface (ifs.map (withoutAddrs ipv6Outside), none)
          = GetNetInterface (ifs, none) := by
  refine ⟨record_mem ifs ifc hmem hup, ?_, ?_, ?_⟩
  · intro n hn hsize hgu hin
    rw [scanAddrs_eq]
    exact List.mem_filterMap.2
      ⟨Addr.IPNet n, hn, acceptAddr_v6 n hgu (by rw [hsize]) hin⟩
  · intro n hlen hout
    exact acceptAddr_v6_outside n hlen hout
  · apply GetNetInterface_withoutAddrs
    intro a ha
    cases a with
    | other t => rfl
    | IPNet n =>
      simp only [ipv6Outside, Bool.and_eq_true, beq_iff_eq, Bool.not_eq_true'] at ha
      exact acceptAddr_v6_outside n ha.1 ha.2

/-- C8 at `hostInterface`, which carries `2001:4860::1/128` and the
unique-local `fd00::1/128`: only the first is in the record. -/
theorem C8_ipv6_block_2000_witness :
    hostInterface ∈ hostExample ∧ hostInterface.isUp = true
      ∧ ({ Name := "pppoe-wan",
           Addr := [⟨4, "198.51.100.9"⟩, ⟨6, "2001:4860::1"⟩] } : NetInterface)
          ∈ (GetNetInterface (hostExample, none)).1
      ∧ ({ IpVer := 6, Address := "2001:4860::1" } : IpAddress)
          ∈ scanAddrs hostInterface.Addrs.1
      ∧ IP.IsGlobalUnicast [0xfd, 0, 0, 0, 0, 0, 0, 0, 0, 0, 0, 0, 0, 0, 0, 1] = true
      ∧ acceptAddr (Addr.IPNet ⟨[0xfd, 0, 0, 0, 0, 0, 0, 0, 0, 0, 0, 0, 0, 0, 0, 1],
          List.replicate 16 255⟩) = none :=
  ⟨by decide, by decide,
    (C8_ipv6_block_2000 hostExample hostInterface (by decide) (by decide)).1,
    (C8_ipv6_block_2000 hostExample hostInterface (by decide) (by decide)).2.1
      ⟨[0x20, 0x01, 0x48, 0x60, 0, 0, 0, 0, 0, 0, 0, 0, 0, 0, 0, 1], List.replicate 16 255⟩
      (by decide) (by decide) (by decide) (by decide),
    by decide,
    (C8_ipv6_block_2000 hostExample hostInterface (by decide) (by decide)).2.2.1
      ⟨[0xfd, 0, 0, 0, 0, 0, 0, 0, 0, 0, 0, 0, 0, 0, 0, 1], List.replicate 16 255⟩
      (by decide) (by decide)⟩

/-- C9: for every up interface and every global-unicast entry on it with
prefix length 32 (`Mask.Size()` is `(32, 32)`), the record of that interface
is in the scan result and contains the address tagged 4; nothing else is
required of the address. -/
theorem C9_ipv4_host_accepted (ifs : List net.Interface) (ifc : net.Interface) (hmem : ifc ∈ ifs)
    (hup : ifc.isUp = true) (n : IPNet) (hn : Addr.IPNet n ∈ ifc.Addrs.1)
    (hsize : IPMask.Size n.Mask = (32, 32)) (hgu : IP.IsGlobalUnicast n.IP = true) :
    ∃ r ∈ (GetNetInterface (ifs, none)).1, r.Name = ifc.Name
      ∧ r.Addr = scanAddrs ifc.Addrs.1
      ∧ ({ IpVer := 4, Address := IP.String n.IP } : IpAddress) ∈ r.Addr := by
  refine ⟨_, record_mem ifs ifc hmem hup, rfl, rfl, ?_⟩
  rw [scanAddrs_eq]
  exact List.mem_filterMap.2 ⟨Addr.IPNet n, hn, acceptAddr_v4 n hgu (by rw [hsize])⟩

/-- C9 at `198.51.100.9/32` on the up interface `pppoe-wan`. -/
theorem C9_ipv4_host_accepted_witness :
    hostInterface ∈ hostExample ∧ hostInterface.isUp = true
      ∧ IPMask.Size [255, 255, 255, 255] = (32, 32)
      ∧ IP.IsGlobalUnicast (IPv4 198 51 100 9) = true
      ∧ ∃ r ∈ (GetNetInterface (hostExample, none)).1, r.Name = "pppoe-wan"
          ∧ r.Addr = scanAddrs hostInterface.Addrs.1
          ∧ ({ IpVer := 4, Address := "198.51.100.9" } : IpAddress) ∈ r.Addr :=
  ⟨by decide, by decide, by decide, by decide,
    C9_ipv4_host_accepted hostExample hostInterface (by decide) (by decide)
      ⟨IPv4 198 51 100 9, [255, 255, 255, 255]⟩ (by decide) (by decide) (by decide)⟩

/-- C10 (counterexample): the RFC 1918 private addresses `192.168.1.10/24`
and `10.0.0.1/32` are global unicast for Go's `IsGlobalUnicast`, and the
scanner puts both in the record, tagged 4. -/
theorem C10_private_ipv4_is_accepted :
    IP.IsPrivate (IPv4 192 168 1 10) = true ∧ IP.IsPrivate (IPv4 10 0 0 1) = true
      ∧ IP.IsGlobalUnicast (IPv4 192 168 1 10) = true
      ∧ IP.IsGlobalUnicast (IPv4 10 0 0 1) = true
      ∧ GetNetInterface (privateExample, none)
          = ([{ Name := "pppoe-wan",
                Addr := [⟨4, "192.168.1.10"⟩, ⟨4, "10.0.0.1"⟩] }], none) := by
  decide

/-- C10 (amended): every address in a record comes from an entry of an up
interface that is neither loopback, link-local unicast, multicast nor
unspecified, and an address tagged 6 is not private or unique-local
(`fc00::/7` lies outside `2000::/3`); the scan result is the same as if the
platform had not reported loopback, link-local, multicast and unspecified
entries at all.  Private IPv4 addresses are not excluded. -/
theorem C10_not_global_is_excluded (ifs : List net.Interface) (r : NetInterface)
    (hr : r ∈ (GetNetInterface (ifs, none)).1) (x : IpAddress) (hx : x ∈ r.Addr) :
    (∃ ifc ∈ ifs, ifc.isUp = true ∧ ifc.Name = r.Name ∧
      ∃ n : IPNet, Addr.IPNet n ∈ ifc.Addrs.1 ∧ acceptAddr (Addr.IPNet n) = some x
        ∧ x.Address = IP.String n.IP
        ∧ IP.IsLoopback n.IP = false ∧ IP.IsLinkLocalUnicast n.IP = false
        ∧ IP.IsMulticast n.IP = false ∧ IP.IsUnspecified n.IP = false
        ∧ (x.IpVer = 6 → IP.IsPrivate n.IP = false))
      ∧ GetNetInterface (ifs.map (withoutAddrs notGlobal), none)
          = GetNetInterface (ifs, none) := by
  constructor
  · obtain ⟨ifc, hmem, hup, hname, _, a, ha, hacc⟩ := record_origin ifs r hr x hx
    obtain ⟨n, rfl, hgu, haddr, hcase⟩ := acceptAddr_some a x hacc
    obtain ⟨h1, h2, h3, h4⟩ := IsGlobalUnicast_excludes n.IP hgu
    refine ⟨ifc, hmem, hup, hname, n, ha, hacc, haddr, h1, h2, h3, h4, ?_⟩
    intro h6
    rcases hcase with ⟨_, _, hin⟩ | ⟨h4', _⟩
    · exact Contains_not_private n.IP hin
    · rw [h6] at h4'; exact absurd h4' (by decide)
  · apply GetNetInterface_withoutAddrs
    intro a ha
    cases a with
    | other t => rfl
    | IPNet n =>
      cases hgu : IP.IsGlobalUnicast n.IP
      · simp [acceptAddr, hgu]
      · obtain ⟨h1, h2, h3, h4⟩ := IsGlobalUnicast_excludes n.IP hgu
        simp [notGlobal, h1, h2, h3, h4] at ha

/-- C10 (amended) at the record of `hostInterface`, whose loopback entry
`127.0.0.1/32` is left out. -/
theorem C10_not_global_is_excluded_witness :
    ({ Name := "pppoe-wan",
       Addr := [⟨4, "198.51.100.9"⟩, ⟨6, "2001:4860::1"⟩] } : NetInterface)
        ∈ (GetNetInterface (hostExample, none)).1
      ∧ GetNetInterface (hostExample.map (withoutAddrs notGlobal), none)
          = GetNetInterface (hostExample, none) :=
  ⟨by decide,
    (C10_not_global_is_excluded hostExample
      { Name := "pppoe-wan", Addr := [⟨4, "198.51.100.9"⟩, ⟨6, "2001:4860::1"⟩] }
      (by decide) ⟨6, "2001:4860::1"⟩ (by decide)).2⟩

/-! ## Lookup by name and `main`: claims -/

theorem find_first_named (name : String) (pre post : List NetInterface) (r : NetInterface)
    (hpre : ∀ q ∈ pre, q.Name ≠ name) (hr : r.Name = name) :
    (pre ++ r :: post).find? (fun iface => iface.Name == name) = some r := by
  induction pre with
  | nil => simp [List.find?_cons, hr]
  | cons q rest ih =>
    have hq : (q.Name == name) = false := by
      simpa using hpre q (List.mem_cons_self q rest)
    simp only [List.cons_append, List.find?_cons, hq]
    exact ih fun q' hq' => hpre q' (List.mem_cons_of_mem q hq')

theorem find_none_named (name : String) (records : List NetInterface)
    (h : ∀ q ∈ records, q.Name ≠ name) :
    records.find? (fun iface => iface.Name == name) = none := by
  rw [List.find?_eq_none]
  intro q hq
  simpa using h q hq

theorem GetAddressByInterface_failed (interfaces : List net.Interface × Option String)
    (name e : String) (hg : (GetNetInterface interfaces).2 = some e) :
    GetAddressByInterface interfaces name = ([], some e) := by
  unfold GetAddressByInterface
  simp only [hg]

theorem GetAddressByInterface_scanned (interfaces : List net.Interface × Option String)
    (name : String) (hg : (GetNetInterface interfaces).2 = none) :
    GetAddressByInterface interfaces name
      = ((((GetNetInterface interfaces).1.find? fun iface => iface.Name == name).map
          fun iface => iface.Addr).getD [], none) := by
  unfold GetAddressByInterface
  simp only [hg]
  cases (GetNetInterface interfaces).1.find? fun iface => iface.Name == name <;> rfl

/-- C11: `GetAddressByInterface(name)` returns an error exactly when the scan
`GetNetInterface` does (the same error), and then with an empty address list.
When the scan succeeds it returns, without error, the address list of the
first record named `name`, and the empty list when no record has that name. -/
theorem C11_lookup_by_name (interfaces : List net.Interface × Option String)
    (name : String) :
    ((GetAddressByInterface interfaces name).2 ≠ none ↔ (GetNetInterface interfaces).2 ≠ none)
      ∧ (GetAddressByInterface interfaces name).2 = (GetNetInterface interfaces).2
      ∧ ((GetNetInterface interfaces).2 ≠ none → (GetAddressByInterface interfaces name).1 = [])
      ∧ (∀ (pre post : List NetInterface) (r : NetInterface),
          GetNetInterface interfaces = (pre ++ r :: post, none) →
          (∀ q ∈ pre, q.Name ≠ name) → r.Name = name →
          GetAddressByInterface interfaces name = (r.Addr, none))
      ∧ (∀ records : List NetInterface, GetNetInterface interfaces = (records, none) →
          (∀ q ∈ records, q.Name ≠ name) →
          GetAddressByInterface interfaces name = ([], none)) := by
  cases herr : (GetNetInterface interfaces).2 with
  | some e =>
    have hdef := GetAddressByInterface_failed interfaces name e herr
    rw [hdef]
    refine ⟨by simp, rfl, fun _ => rfl, ?_, ?_⟩
    · intro pre post r hscan
      rw [hscan] at herr
      exact absurd herr (by simp)
    · intro recs hscan
      rw [hscan] at herr
      exact absurd herr (by simp)
  | none =>
    have hdef := GetAddressByInterface_scanned interfaces name herr
    refine ⟨by simp [hdef], by rw [hdef], fun h => absurd rfl h, ?_, ?_⟩
    · intro pre post r hscan hpre hr
      rw [hdef, hscan]
      simp only [find_first_named name pre post r hpre hr, Option.map_some', Option.getD_some]
    · intro recs hscan hnone
      rw [hdef, hscan]
      simp only [find_none_named name recs hnone, Option.map_none', Option.getD_none]

/-- C11 at `mixedExample`: the list of `pppoe-wan`, the empty list for the
unknown name `tun0`, and the error of a failed enumeration. -/
theorem C11_lookup_by_name_witness :
    GetAddressByInterface (mixedExample, none) "pppoe-wan"
        = ([⟨4, "198.51.100.9"⟩, ⟨6, "2001:4860::1"⟩], none)
      ∧ GetAddressByInterface (mixedExample, none) "tun0" = ([], none)
      ∧ ((GetAddressByInterface ([], some "netlinkrib: permission denied") "pppoe-wan").2
            ≠ none
          ↔ (GetNetInterface ([], some "netlinkrib: permission denied")).2 ≠ none) :=
  ⟨(C11_lookup_by_name (mixedExample, none) "pppoe-wan").2.2.2.1
      [{ Name := "wlan0", Addr := [] }] []
      { Name := "pppoe-wan", Addr := [⟨4, "198.51.100.9"⟩, ⟨6, "2001:4860::1"⟩] }
      (by decide) (by decide) (by decide),
    (C11_lookup_by_name (mixedExample, none) "tun0").2.2.2.2
      [{ Name := "wlan0", Addr := [] },
       { Name := "pppoe-wan", Addr := [⟨4, "198.51.100.9"⟩, ⟨6, "2001:4860::1"⟩] }]
      (by decide) (by decide),
    (C11_lookup_by_name ([], some "netlinkrib: permission denied") "pppoe-wan").1⟩

/-- C12: when interface enumeration succeeds, the scan result is, in
enumeration order, one record for each interface that has the up flag set
(and none for the others), carrying the interface's name and the addresses
accepted from the list its `Addrs()` returned.  The scan returns exactly the
error of the enumeration, so a failure to read one interface's addresses
never makes it fail, and the record of an up interface whose address list
cannot be read has an empty address list. -/
theorem C12_one_record_per_up_interface (ifs : List net.Interface) :
    GetNetInterface (ifs, none)
        = ((ifs.filter net.Interface.isUp).map
            fun ifc => { Name := ifc.Name, Addr := scanAddrs ifc.Addrs.1 }, none)
      ∧ (∀ interfaces : List net.Interface × Option String,
          (GetNetInterface interfaces).2 = interfaces.2)
      ∧ (∀ ifc ∈ ifs, ifc.isUp = true → ifc.addrsUnreadable = true →
          ({ Name := ifc.Name, Addr := [] } : NetInterface)
            ∈ (GetNetInterface (ifs, none)).1) := by
  refine ⟨GetNetInterface_ok ifs, ?_, ?_⟩
  · intro interfaces
    unfold GetNetInterface
    cases interfaces.2 <;> rfl
  · intro ifc hmem hup hbad
    have hrec := record_mem ifs ifc hmem hup
    have hnil : ifc.Addrs.1 = [] := by
      simp only [net.Interface.addrsUnreadable, Bool.and_eq_true, List.isEmpty_iff] at hbad
      exact hbad.2
    rw [hnil] at hrec
    exact hrec

/-- C12 at `mixedExample`: `eth0` is down and has no record, `wlan0` is up with
an unreadable address list and has an empty record, `pppoe-wan` follows. -/
theorem C12_one_record_per_up_interface_witness :
    GetNetInterface (mixedExample, none)
        = ([{ Name := "wlan0", Addr := [] },
            { Name := "pppoe-wan", Addr := [⟨4, "198.51.100.9"⟩, ⟨6, "2001:4860::1"⟩] }],
           none)
      ∧ ({ Name := "wlan0", Addr := [] } : NetInterface)
          ∈ (GetNetInterface (mixedExample, none)).1 :=
  ⟨by decide,
    (C12_one_record_per_up_interface mixedExample).2.2
      { Name := "wlan0", Flags := 1, Addrs := ([], some "route ip+net: no such device") }
      (by decide) (by decide) (by decide)⟩

/-- C13: fail fast.  When `GetAddressByInterface` returns an error, `main`
issues no remote update call of either version, reads no cache file and
writes none, and both cache files are left as they were. -/
theorem C13_fail_fast (interfaces : List net.Interface × Option String) (w : World)
    (fs : Files) (herr : (GetAddressByInterface interfaces Interface).2 ≠ none) :
    (∀ v : Ver, calls v (main interfaces w fs).1 = [])
      ∧ (∀ f : FileName, readsOf f (main interfaces w fs).1 = 0)
      ∧ (∀ f : FileName, writesTo f (main interfaces w fs).1 = [])
      ∧ (main interfaces w fs).2 = fs := by
  cases h : (GetAddressByInterface interfaces Interface).2 with
  | none => exact absurd h herr
  | some e =>
    have hmain : main interfaces w fs
        = ([Event.Printf ("unable to get address by wlan0: " ++ e)], fs) := by
      unfold main
      simp only [h]
    rw [hmain]
    refine ⟨fun v => ?_, fun f => ?_, fun f => ?_, rfl⟩
    · cases v <;> rfl
    · cases f <;> rfl
    · cases f <;> rfl

/-- C13 at a failed interface enumeration, with a cached IPv4 address. -/
theorem C13_fail_fast_witness :
    (GetAddressByInterface ([], some "netlinkrib: permission denied") Interface).2 ≠ none
      ∧ (∀ v : Ver, calls v (main ([], some "netlinkrib: permission denied") World.allOk
          ⟨some "203.0.113.7", none⟩).1 = [])
      ∧ (main ([], some "netlinkrib: permission denied") World.allOk
          ⟨some "203.0.113.7", none⟩).2 = ⟨some "203.0.113.7", none⟩ :=
  ⟨by decide,
    (C13_fail_fast ([], some "netlinkrib: permission denied") World.allOk
      ⟨some "203.0.113.7", none⟩ (by decide)).1,
    (C13_fail_fast ([], some "netlinkrib: permission denied") World.allOk
      ⟨some "203.0.113.7", none⟩ (by decide)).2.2.2⟩

/-! ## The reconciler: behaviour claims -/

theorem writesTo_nil (f : FileName) : writesTo f [] = [] := rfl

theorem writesTo_read (f g : FileName) (t : List Event) :
    writesTo f (Event.ReadLastIp g :: t) = writesTo f t := by
  simp [writesTo, writeOf, List.filterMap_cons]

theorem writesTo_update (f : FileName) (v : Ver) (x : String) (t : List Event) :
    writesTo f (v.update x :: t) = writesTo f t := by
  cases v <;> simp [writesTo, writeOf, Ver.update, List.filterMap_cons]

theorem writesTo_write (f : FileName) (x : String) (t : List Event) :
    writesTo f (Event.CacheLastIp f x :: t) = x :: writesTo f t := by
  simp [writesTo, writeOf, List.filterMap_cons]

theorem writesTo_slotRun_le (write : Nat → WriteResult) (v : Ver) :
    ∀ (es : List (Nat × String)) (c : Option String),
      (writesTo v.file (slotRun write v false c es).1).length ≤ 1 := by
  intro es
  induction es with
  | nil => intro c; simp [slotRun, writesTo_nil]
  | cons e rest ih =>
    intro c
    by_cases h : c.getD "" = e.2
    · simpa [slotRun, slotStep, h, writesTo_read] using ih c
    · simp [slotRun, slotStep, h, writesTo_read, writesTo_update, writesTo_write,
        slotRun_handled, writesTo_nil]

/-- C14 (evaluation at the failing input): each cache file is written at most
once in every run, but a file can be read more than once.  With two
version-6 entries and the cache equal to the first, `LAST_IP6` is read for
the first entry, the flag stays unset, and it is read again for the second
entry: two reads in one run. -/
theorem C14_cache_file_read_twice :
    (∀ (w : World) (addrs : List IpAddress) (fs : Files) (v : Ver),
        (writesTo v.file (reconcile w addrs fs).trace).length ≤ 1)
      ∧ readsOf FileName.LAST_IP6
          (reconcile World.allOk [⟨6, "2001:4860::1"⟩, ⟨6, "2001:4860::2"⟩]
            ⟨none, some "2001:4860::1"⟩).trace = 2 := by
  constructor
  · intro w addrs fs v
    rw [← writesTo_about, (reconcile_slotRun w v addrs fs).1]
    exact writesTo_slotRun_le _ _ _ _
  · decide

theorem slotRun_unchanged (write : Nat → WriteResult) (v : Ver) (c : Option String)
    (i : Nat) (x : String) (rest : List (Nat × String)) (h : c.getD "" = x) :
    slotRun write v false c ((i, x) :: rest)
      = (Event.ReadLastIp v.file :: (slotRun write v false c rest).1,
         (slotRun write v false c rest).2) := by
  simp [slotRun, slotStep, h]

theorem slotRun_first_changed (write : Nat → WriteResult) (v : Ver) (c : Option String)
    (a : IpAddress) :
    ∀ (addrs : List IpAddress) (i : Nat),
      addrs.find? (changedEntry v (c.getD "")) = some a →
      calls v (slotRun write v false c (verEntries v.num i addrs)).1 = [a.Address]
        ∧ (slotRun write v false c (verEntries v.num i addrs)).2
          = afterWrite (write (i + addrs.findIdx (changedEntry v (c.getD "")))) a.Address := by
  intro addrs
  induction addrs with
  | nil => intro i h; simp at h
  | cons b rest ih =>
    intro i h
    by_cases hb : b.IpVer = v.num
    · by_cases hx : c.getD "" = b.Address
      · have hp : changedEntry v (c.getD "") b = false := by
          simp [changedEntry, hb, hx]
        have h2 : rest.find? (changedEntry v (c.getD "")) = some a := by
          simpa [List.find?_cons, hp] using h
        obtain ⟨h3, h4⟩ := ih (i + 1) h2
        have hidx : i + (List.findIdx (changedEntry v (c.getD "")) rest + 1)
            = i + 1 + List.findIdx (changedEntry v (c.getD "")) rest := by omega
        simp only [verEntries, hb, if_true, slotRun_unchanged write v c i b.Address _ hx,
          calls_read, List.findIdx_cons, hp, cond_false, hidx]
        exact ⟨h3, h4⟩
      · have hp : changedEntry v (c.getD "") b = true := by
          simp only [changedEntry, hb, beq_self_eq_true, Bool.true_and, bne_iff_ne, ne_eq]
          exact fun h' => hx h'.symm
        have hab : b = a := by simpa [List.find?_cons, hp] using h
        subst hab
        simp only [verEntries, hb, if_true, slotRun_changed write v c i b.Address _ hx,
          calls_read, calls_update, calls_write, calls_nil, List.findIdx_cons, hp, cond_true,
          Nat.add_zero, and_self]
    · have hp : changedEntry v (c.getD "") b = false := by
        simp [changedEntry, hb]
      have h2 : rest.find? (changedEntry v (c.getD "")) = some a := by
        simpa [List.find?_cons, hp] using h
      obtain ⟨h3, h4⟩ := ih (i + 1) h2
      have hidx : i + (List.findIdx (changedEntry v (c.getD "")) rest + 1)
          = i + 1 + List.findIdx (changedEntry v (c.getD "")) rest := by omega
      simp only [verEntries, hb, if_false, List.findIdx_cons, hp, cond_false, hidx]
      exact ⟨h3, h4⟩

theorem slotRun_none_changed (write : Nat → WriteResult) (v : Ver) (c : Option String) :
    ∀ (addrs : List IpAddress) (i : Nat),
      (∀ a ∈ addrs, a.IpVer = v.num → a.Address = c.getD "") →
      calls v (slotRun write v false c (verEntries v.num i addrs)).1 = []
        ∧ writesTo v.file (slotRun write v false c (verEntries v.num i addrs)).1 = []
        ∧ (slotRun write v false c (verEntries v.num i addrs)).2 = c := by
  intro addrs
  induction addrs with
  | nil => intro i _; exact ⟨rfl, rfl, rfl⟩
  | cons b rest ih =>
    intro i h
    have hrest := ih (i + 1) fun a ha => h a (List.mem_cons_of_mem b ha)
    by_cases hb : b.IpVer = v.num
    · have hx : c.getD "" = b.Address := (h b (List.mem_cons_self b rest) hb).symm
      simp only [verEntries, hb, if_true, slotRun_unchanged write v c i b.Address _ hx,
        calls_read, writesTo_read]
      exact hrest
    · simp only [verEntries, hb, if_false]
      exact hrest

theorem find_changed_none (v : Ver) (cached : String) (addrs : List IpAddress) :
    addrs.find? (changedEntry v cached) = none
      ↔ ∀ a ∈ addrs, a.IpVer = v.num → a.Address = cached := by
  rw [List.find?_eq_none]
  constructor
  · intro h a ha hv
    have := h a ha
    simpa [changedEntry, hv] using this
  · intro h a ha
    by_cases hv : a.IpVer = v.num
    · simp [changedEntry, hv, h a ha hv]
    · simp [changedEntry, hv]

theorem find_changed_some (v : Ver) (cached : String) (addrs : List IpAddress)
    (a : IpAddress) (h : addrs.find? (changedEntry v cached) = some a) :
    a ∈ addrs ∧ a.IpVer = v.num ∧ a.Address ≠ cached := by
  have hp := List.find?_some h
  simp only [changedEntry, Bool.and_eq_true, beq_iff_eq, bne_iff_ne, ne_eq] at hp
  exact ⟨List.mem_of_find?_eq_some h, hp.1, hp.2⟩

theorem reconcile_exact (w : World) (v : Ver) (addrs : List IpAddress) (fs : Files) :
    (∀ a, addrs.find? (changedEntry v (cachedValue fs v)) = some a →
        calls v (reconcile w addrs fs).trace = [a.Address]
          ∧ (w.write (addrs.findIdx (changedEntry v (cachedValue fs v))) = WriteResult.ok →
              (reconcile w addrs fs).files.get v.file = some a.Address))
      ∧ ((∀ a ∈ addrs, a.IpVer = v.num → a.Address = cachedValue fs v) →
          calls v (reconcile w addrs fs).trace = []
            ∧ writesTo v.file (reconcile w addrs fs).trace = []
            ∧ (reconcile w addrs fs).files.get v.file = fs.get v.file)
      ∧ (addrs.find? (changedEntry v (cachedValue fs v)) = none
          ↔ ∀ a ∈ addrs, a.IpVer = v.num → a.Address = cachedValue fs v) := by
  have hrun := reconcile_slotRun w v addrs fs
  refine ⟨?_, ?_, find_changed_none v _ addrs⟩
  · intro a ha
    obtain ⟨h1, h2⟩ := slotRun_first_changed w.write v (fs.get v.file) a addrs 0 ha
    constructor
    · rw [← calls_about, hrun.1]; exact h1
    · intro hw
      rw [hrun.2, h2]
      simp only [Nat.zero_add]
      unfold cachedValue at hw
      rw [hw]
      rfl
  · intro hall
    obtain ⟨h1, h2, h3⟩ := slotRun_none_changed w.write v (fs.get v.file) addrs 0 hall
    refine ⟨?_, ?_, ?_⟩
    · rw [← calls_about, hrun.1]; exact h1
    · rw [← writesTo_about, hrun.1]; exact h2
    · rw [hrun.2]; exact h3

/-- C15: what a run submits.  For each version `v`: if some entry of version
`v` has a value different from the initially cached value of `v` (a missing
file read as the empty string), the run issues exactly one remote call of
version `v`, carrying the value of the first such entry in list order, and,
the write of that iteration succeeding, leaves that value in the cache file
of `v`; if every entry of version `v` equals the cached value, or there is
none, the run issues no remote call of version `v`, writes nothing to the
cache file of `v` and leaves it unchanged.  The two cases are exhaustive. -/
theorem C15_exact_submission (w : World) (v : Ver) (addrs : List IpAddress) (fs : Files) :
    (∀ a, addrs.find? (changedEntry v (cachedValue fs v)) = some a →
        calls v (reconcile w addrs fs).trace = [a.Address]
          ∧ (w.write (addrs.findIdx (changedEntry v (cachedValue fs v))) = WriteResult.ok →
              (reconcile w addrs fs).files.get v.file = some a.Address))
      ∧ ((∀ a ∈ addrs, a.IpVer = v.num → a.Address = cachedValue fs v) →
          calls v (reconcile w addrs fs).trace = []
            ∧ writesTo v.file (reconcile w addrs fs).trace = []
            ∧ (reconcile w addrs fs).files.get v.file = fs.get v.file)
      ∧ (addrs.find? (changedEntry v (cachedValue fs v)) = none
          ↔ ∀ a ∈ addrs, a.IpVer = v.num → a.Address = cachedValue fs v) :=
  reconcile_exact w v addrs fs

/-- C15 at a list whose first version-4 entry equals the cache and whose
second differs: the second is submitted and cached. -/
theorem C15_exact_submission_witness :
    calls Ver.v4 (reconcile World.allOk [⟨4, "203.0.113.7"⟩, ⟨4, "198.51.100.9"⟩]
        ⟨some "203.0.113.7", none⟩).trace = ["198.51.100.9"]
      ∧ (reconcile World.allOk [⟨4, "203.0.113.7"⟩, ⟨4, "198.51.100.9"⟩]
          ⟨some "203.0.113.7", none⟩).files.get Ver.v4.file = some "198.51.100.9"
      ∧ calls Ver.v6 (reconcile World.allOk [⟨4, "203.0.113.7"⟩, ⟨4, "198.51.100.9"⟩]
          ⟨some "203.0.113.7", none⟩).trace = [] :=
  ⟨((C15_exact_submission World.allOk Ver.v4 [⟨4, "203.0.113.7"⟩, ⟨4, "198.51.100.9"⟩]
        ⟨some "203.0.113.7", none⟩).1 ⟨4, "198.51.100.9"⟩ (by decide)).1,
    ((C15_exact_submission World.allOk Ver.v4 [⟨4, "203.0.113.7"⟩, ⟨4, "198.51.100.9"⟩]
        ⟨some "203.0.113.7", none⟩).1 ⟨4, "198.51.100.9"⟩ (by decide)).2 rfl,
    ((C15_exact_submission World.allOk Ver.v6 [⟨4, "203.0.113.7"⟩, ⟨4, "198.51.100.9"⟩]
        ⟨some "203.0.113.7", none⟩).2.1 (by decide)).1⟩

theorem second_run_quiet_iff (w1 w2 : World) (hw : ∀ i, w1.write i = WriteResult.ok)
    (v : Ver) (addrs : List IpAddress) (fs : Files) :
    calls v (reconcile w2 addrs (reconcile w1 addrs fs).files).trace = []
      ↔ sameValue v addrs := by
  have hfirst := reconcile_exact w1 v addrs fs
  have hsecond := reconcile_exact w2 v addrs (reconcile w1 addrs fs).files
  cases hf : addrs.find? (changedEntry v (cachedValue fs v)) with
  | none =>
    have hall := hfirst.2.2.1 hf
    have hkeep := (hfirst.2.1 hall).2.2
    have hcv : cachedValue (reconcile w1 addrs fs).files v = cachedValue fs v := by
      unfold cachedValue; rw [hkeep]
    constructor
    · intro _ a ha b hb hav hbv
      rw [hall a ha hav, hall b hb hbv]
    · intro _
      exact (hsecond.2.1 (by rw [hcv]; exact hall)).1
  | some a =>
    obtain ⟨hmem, hav, _⟩ := find_changed_some v _ addrs a hf
    have hslot := (hfirst.1 a hf).2 (hw _)
    have hcv : cachedValue (reconcile w1 addrs fs).files v = a.Address := by
      unfold cachedValue; rw [hslot]; rfl
    constructor
    · intro hq x hx y hy hxv hyv
      have hnone : addrs.find? (changedEntry v (cachedValue (reconcile w1 addrs fs).files v))
          = none := by
        cases hg : addrs.find? (changedEntry v (cachedValue (reconcile w1 addrs fs).files v))
          with
        | none => rfl
        | some b =>
          have := (hsecond.1 b hg).1
          rw [hq] at this
          exact absurd this (by simp)
      have hall := hsecond.2.2.1 hnone
      rw [hall x hx hxv, hall y hy hyv]
    · intro hsame
      refine (hsecond.2.1 ?_).1
      intro b hb hbv
      rw [hcv]
      exact hsame b hb a hmem hbv hav

theorem sameValue_of_le_one (v : Ver) (addrs : List IpAddress)
    (h : (entriesOf v addrs).length ≤ 1) : sameValue v addrs := by
  intro a ha b hb hav hbv
  have ha' : a ∈ entriesOf v addrs := List.mem_filter.2 ⟨ha, by simpa using hav⟩
  have hb' : b ∈ entriesOf v addrs := List.mem_filter.2 ⟨hb, by simpa using hbv⟩
  cases hl : entriesOf v addrs with
  | nil => rw [hl] at ha'; cases ha'
  | cons x rest =>
    rw [hl] at ha' hb' h
    cases rest with
    | nil =>
      rw [List.mem_singleton] at ha' hb'
      rw [ha', hb']
    | cons y tl => simp at h

/-- C16: the exact condition for idempotence.  The cache writes of the first
run succeeding, the second of two consecutive runs on the same list issues no
remote call of either version if and only if, for each version, all entries
of that version carry the same value; this is so, in particular, for every
list with at most one entry per version. -/
theorem C16_idempotence_condition (w1 w2 : World) (hw : ∀ i, w1.write i = WriteResult.ok)
    (addrs : List IpAddress) (fs : Files) :
    ((∀ v : Ver, calls v (reconcile w2 addrs (reconcile w1 addrs fs).files).trace = [])
        ↔ ∀ v : Ver, sameValue v addrs)
      ∧ ((∀ v : Ver, (entriesOf v addrs).length ≤ 1) →
          ∀ v : Ver, calls v (reconcile w2 addrs (reconcile w1 addrs fs).files).trace = []) := by
  have key := fun v => second_run_quiet_iff w1 w2 hw v addrs fs
  refine ⟨⟨fun h v => (key v).1 (h v), fun h v => (key v).2 (h v)⟩, ?_⟩
  intro hle v
  exact (key v).2 (sameValue_of_le_one v addrs (hle v))

/-- C16 at the list `[{4,"203.0.113.7"},{6,"2001:4860::1"}]`, one entry per
version: the second run issues no remote call. -/
theorem C16_idempotence_condition_witness :
    (∀ i, World.allOk.write i = WriteResult.ok)
      ∧ ∀ v : Ver, calls v (reconcile World.allOk [⟨4, "203.0.113.7"⟩, ⟨6, "2001:4860::1"⟩]
          (reconcile World.allOk [⟨4, "203.0.113.7"⟩, ⟨6, "2001:4860::1"⟩]
            ⟨none, none⟩).files).trace = [] :=
  ⟨fun _ => rfl,
    (C16_idempotence_condition World.allOk World.allOk (fun _ => rfl)
      [⟨4, "203.0.113.7"⟩, ⟨6, "2001:4860::1"⟩] ⟨none, none⟩).2
      (by intro v; cases v <;> decide)⟩

theorem verEntries_values (v : Ver) :
    ∀ (addrs : List IpAddress) (i : Nat),
      (verEntries v.num i addrs).map Prod.snd
        = (entriesOf v addrs).map fun a => a.Address := by
  intro addrs
  induction addrs with
  | nil => intro i; rfl
  | cons b rest ih =>
    intro i
    have hrec := ih (i + 1)
    simp only [entriesOf] at hrec
    by_cases hb : b.IpVer = v.num
    · simp [verEntries, entriesOf, List.filter_cons, hb, hrec]
    · simp [verEntries, entriesOf, List.filter_cons, hb, hrec]

theorem slotRun_events_congr (write write' : Nat → WriteResult) (v : Ver) :
    ∀ (es es' : List (Nat × String)) (h : Bool) (c : Option String),
      es.map Prod.snd = es'.map Prod.snd →
      (slotRun write v h c es).1 = (slotRun write' v h c es').1 := by
  intro es
  induction es with
  | nil =>
    intro es' h c hv
    cases es' with
    | nil => rfl
    | cons e' rest' => simp at hv
  | cons e rest ih =>
    intro es' h c hv
    cases es' with
    | nil => simp at hv
    | cons e' rest' =>
      simp only [List.map_cons, List.cons.injEq] at hv
      obtain ⟨he, hrest⟩ := hv
      obtain ⟨i, x⟩ := e
      obtain ⟨j, y⟩ := e'
      simp only at he
      subst he
      cases h with
      | true => simp [slotRun_handled]
      | false =>
        by_cases hx : c.getD "" = x
        · rw [slotRun_unchanged write v c i x rest hx, slotRun_unchanged write' v c j x rest' hx,
            ih rest' false c hrest]
        · rw [slotRun_changed write v c i x rest hx, slotRun_changed write' v c j x rest' hx]

theorem slotRun_slot_congr (write write' : Nat → WriteResult)
    (hw : ∀ i j, write i = write' j) (v : Ver) :
    ∀ (es es' : List (Nat × String)) (h : Bool) (c : Option String),
      es.map Prod.snd = es'.map Prod.snd →
      (slotRun write v h c es).2 = (slotRun write' v h c es').2 := by
  intro es
  induction es with
  | nil =>
    intro es' h c hv
    cases es' with
    | nil => rfl
    | cons e' rest' => simp at hv
  | cons e rest ih =>
    intro es' h c hv
    cases es' with
    | nil => simp at hv
    | cons e' rest' =>
      simp only [List.map_cons, List.cons.injEq] at hv
      obtain ⟨he, hrest⟩ := hv
      obtain ⟨i, x⟩ := e
      obtain ⟨j, y⟩ := e'
      simp only at he
      subst he
      cases h with
      | true => simp [slotRun_handled]
      | false =>
        by_cases hx : c.getD "" = x
        · rw [slotRun_unchanged write v c i x rest hx, slotRun_unchanged write' v c j x rest' hx,
            ih rest' false c hrest]
        · rw [slotRun_changed write v c i x rest hx, slotRun_changed write' v c j x rest' hx,
            hw i j]

theorem loopBody_neither (w : World) (i : Nat) (s : LoopState) (a : IpAddress)
    (h4 : a.IpVer ≠ 4) (h6 : a.IpVer ≠ 6) : loopBody w i s a = s := by
  simp [loopBody, h4, h6]

/-- C17: the two versions are reconciled independently.  For each version `v`,
two runs whose address lists have the same subsequence of entries of version
`v` and whose cache files of `v` start with the same content perform the same
effects concerning `v` (reads and writes of its cache file, remote calls of
`v`), whatever the other entries, the other cache file and the outcomes of
the remote calls and writes are, and end with the same content in the cache
file of `v` when the writes have the same outcome.  One loop iteration on an
entry of another version performs no effect concerning `v` and leaves the
cache file and the flag of `v` unchanged, and an iteration on an entry whose
`IpVer` is neither 4 nor 6 changes nothing at all. -/
theorem C17_versions_independent (v : Ver) :
    (∀ (w w' : World) (addrs addrs' : List IpAddress) (fs fs' : Files),
        entriesOf v addrs = entriesOf v addrs' → fs.get v.file = fs'.get v.file →
        about v (reconcile w addrs fs).trace = about v (reconcile w' addrs' fs').trace
          ∧ calls v (reconcile w addrs fs).trace = calls v (reconcile w' addrs' fs').trace
          ∧ ((∀ i j, w.write i = w'.write j) →
              (reconcile w addrs fs).files.get v.file
                = (reconcile w' addrs' fs').files.get v.file))
      ∧ (∀ (w : World) (i : Nat) (s : LoopState) (a : IpAddress), a.IpVer ≠ v.num →
          about v (loopBody w i s a).trace = about v s.trace
            ∧ (loopBody w i s a).files.get v.file = s.files.get v.file
            ∧ (loopBody w i s a).handled v = s.handled v)
      ∧ (∀ (w : World) (i : Nat) (s : LoopState) (a : IpAddress),
          a.IpVer ≠ 4 → a.IpVer ≠ 6 → loopBody w i s a = s) := by
  refine ⟨?_, fun w i s a h => loopBody_other w v i s a h,
    fun w i s a h4 h6 => loopBody_neither w i s a h4 h6⟩
  intro w w' addrs addrs' fs fs' hent hfile
  have hvals : (verEntries v.num 0 addrs).map Prod.snd
      = (verEntries v.num 0 addrs').map Prod.snd := by
    rw [verEntries_values, verEntries_values, hent]
  have hab : about v (reconcile w addrs fs).trace
      = about v (reconcile w' addrs' fs').trace := by
    rw [(reconcile_slotRun w v addrs fs).1, (reconcile_slotRun w' v addrs' fs').1, hfile]
    exact slotRun_events_congr _ _ v _ _ _ _ hvals
  refine ⟨hab, ?_, ?_⟩
  · rw [← calls_about, hab, calls_about]
  · intro hw
    rw [(reconcile_slotRun w v addrs fs).2, (reconcile_slotRun w' v addrs' fs').2, hfile]
    exact slotRun_slot_congr _ _ hw v _ _ _ _ hvals

/-- C17 at two lists with the same version-4 entries, different version-6
entries and an entry tagged 5, and different `LAST_IP6` files. -/
theorem C17_versions_independent_witness :
    calls Ver.v4 (reconcile World.allOk [⟨6, "2001:4860::1"⟩, ⟨4, "203.0.113.7"⟩]
        ⟨some "198.51.100.9", none⟩).trace
      = calls Ver.v4 (reconcile World.allOk [⟨4, "203.0.113.7"⟩, ⟨5, "x"⟩]
        ⟨some "198.51.100.9", some "2001:4860::2"⟩).trace
      ∧ loopBody World.allOk 0
          { v4 := false, v6 := false, files := ⟨none, none⟩, trace := [] } ⟨5, "x"⟩
        = { v4 := false, v6 := false, files := ⟨none, none⟩, trace := [] } :=
  ⟨((C17_versions_independent Ver.v4).1 World.allOk World.allOk
      [⟨6, "2001:4860::1"⟩, ⟨4, "203.0.113.7"⟩] [⟨4, "203.0.113.7"⟩, ⟨5, "x"⟩]
      ⟨some "198.51.100.9", none⟩ ⟨some "198.51.100.9", some "2001:4860::2"⟩
      (by decide) (by decide)).2.1,
    (C17_versions_independent Ver.v4).2.2 World.allOk 0
      { v4 := false, v6 := false, files := ⟨none, none⟩, trace := [] } ⟨5, "x"⟩
      (by decide) (by decide)⟩

/-! ## The scanner as a filter -/

theorem acceptAddr_eq_kept (a : Addr) :
    acceptAddr a = if isKept a then some (recordOf a) else none := by
  cases a with
  | other t => rfl
  | IPNet n =>
    unfold acceptAddr isKept recordOf maskWidth
    by_cases hgu : IP.IsGlobalUnicast n.IP = true
    · by_cases h128 : (IPMask.Size n.Mask).2 = 128
      · by_cases hin : IPNet.Contains ipv6Unicast n.IP = true
        · simp [hgu, h128, hin]
        · simp [hgu, h128, hin]
      · by_cases h32 : (IPMask.Size n.Mask).2 = 32
        · simp [hgu, h32]
        · simp [hgu, h128, h32]
    · simp [hgu]

theorem scanAddrs_eq_kept (addrs : List Addr) :
    scanAddrs addrs = (addrs.filter isKept).map recordOf := by
  rw [scanAddrs_eq]
  induction addrs with
  | nil => rfl
  | cons a rest ih =>
    cases hk : isKept a <;>
      simp [List.filterMap_cons, List.filter_cons, acceptAddr_eq_kept, hk, ih]

theorem recordOf_tag (a : Addr) (h : isKept a = true) :
    (recordOf a).IpVer = 4 ∨ (recordOf a).IpVer = 6 := by
  cases a with
  | other t => simp [isKept] at h
  | IPNet n =>
    unfold recordOf
    by_cases h128 : maskWidth n.Mask = 128
    · exact Or.inr (by simp [h128])
    · exact Or.inl (by simp [h128])

/-- C18: the scanner is an order-preserving filter.  The scan result is, for
the up interfaces in enumeration order, the interface's name with the list
obtained from the address list the platform reports by keeping, in order,
exactly the entries that are IP networks whose IP is global-unicast and whose
mask is either 128 bits wide with the IP inside `2000::/3` or 32 bits wide,
each kept entry giving one record entry with the text of its IP, tagged 6 in
the first case and 4 in the second; every tag in the result is 4 or 6. -/
theorem C18_scanner_is_a_filter (ifs : List net.Interface) :
    GetNetInterface (ifs, none)
        = ((ifs.filter net.Interface.isUp).map fun ifc =>
            { Name := ifc.Name, Addr := (ifc.Addrs.1.filter isKept).map recordOf }, none)
      ∧ (∀ ifc ∈ ifs, ifc.isUp = true →
          ({ Name := ifc.Name, Addr := (ifc.Addrs.1.filter isKept).map recordOf }
            : NetInterface) ∈ (GetNetInterface (ifs, none)).1)
      ∧ (∀ addrs : List Addr, scanAddrs addrs = (addrs.filter isKept).map recordOf)
      ∧ (∀ r ∈ (GetNetInterface (ifs, none)).1, ∀ x ∈ r.Addr, x.IpVer = 4 ∨ x.IpVer = 6) := by
  have hall : GetNetInterface (ifs, none)
      = ((ifs.filter net.Interface.isUp).map fun ifc =>
          { Name := ifc.Name, Addr := (ifc.Addrs.1.filter isKept).map recordOf }, none) := by
    rw [GetNetInterface_ok]
    simp only [scanAddrs_eq_kept]
  refine ⟨hall, ?_, scanAddrs_eq_kept, ?_⟩
  · intro ifc hmem hup
    rw [hall]
    exact List.mem_map.2 ⟨ifc, List.mem_filter.2 ⟨hmem, hup⟩, rfl⟩
  · intro r hr x hx
    rw [hall] at hr
    obtain ⟨ifc, _, rfl⟩ := List.mem_map.1 hr
    obtain ⟨a, ha, rfl⟩ := List.mem_map.1 hx
    exact recordOf_tag a (List.mem_filter.1 ha).2

/-- C18 at `mixedExample`: of the four entries of `pppoe-wan` the first two
are kept, in order. -/
theorem C18_scanner_is_a_filter_witness :
    hostInterface.Addrs.1.filter isKept
        = [Addr.IPNet ⟨IPv4 198 51 100 9, [255, 255, 255, 255]⟩,
           Addr.IPNet ⟨[0x20, 0x01, 0x48, 0x60, 0, 0, 0, 0, 0, 0, 0, 0, 0, 0, 0, 1],
             List.replicate 16 255⟩]
      ∧ ({ Name := "pppoe-wan", Addr := (hostInterface.Addrs.1.filter isKept).map recordOf }
          : NetInterface) ∈ (GetNetInterface (mixedExample, none)).1
      ∧ scanAddrs hostInterface.Addrs.1 = (hostInterface.Addrs.1.filter isKept).map recordOf :=
  ⟨by decide,
    (C18_scanner_is_a_filter mixedExample).2.1 hostInterface (by decide) (by decide),
    (C18_scanner_is_a_filter mixedExample).2.2.1 hostInterface.Addrs.1⟩

end Dnspod
